import Mathlib

/-!
# Verification of the matrixabm distributed simulation engine

A shallow embedding, in Lean 4, of the parts of the `matrixabm` Python
package relevant to its specification: the `StateUpdate` datatype and the
state-store flush ordering (`datatypes.py`, `state_store.py`), the
`GreedyLoadBalancer` (`load_balancer.py` / `greedy_load_balancer.py`), the
`Coordinator`'s step-profile handling (`coordinator.py`), and the `Runner`'s
step gates (`runner.py`).

Modelling conventions:
* Python `float` values are embedded as exact rationals (`ℚ`); the decimal
  literals `0.9` and `0.05` of the source are embedded as `9/10` and `5/100`.
* Python `float` division raises `ZeroDivisionError` on a zero denominator;
  it is embedded as `pydiv : ℚ → ℚ → Except String ℚ`.  NumPy `float64`
  division instead yields `nan`/`inf`; it is embedded as
  `npdiv : ℚ → ℚ → Option ℚ` with `none` standing for the non-finite
  results, for which every `<` comparison is `False`.
* Python `dict`s (insertion ordered, unique keys) are embedded as
  association lists, `set`s as duplicate-free lists; agent/object
  identifiers (Python strings) are embedded as `Nat`, keeping only their
  total order, store and order-key strings are kept as `String`.
* Fallible operations (`KeyError`, `ValueError`, `ZeroDivisionError`,
  failing `assert`) return `Except String _`.
* The unbounded `while` loop of `GreedyLoadBalancer.balance` is embedded
  with explicit fuel; a result of `none` means the loop was still running
  when the fuel ran out, and a theorem of the form
  `∀ fuel, ... = .ok none` states that the Python loop never terminates.
-/

unseal Rat.add Rat.sub Rat.mul Rat.inv String.ltb

/-! ## Python / NumPy arithmetic primitives -/

/-! ## Python dict / set primitives

A `dict` is an insertion-ordered association list with unique keys:
assigning an existing key overwrites in place, a new key is appended. -/

/-! ## `datatypes.py`: `StateUpdate`

`@dataclass(init=False, order=True)` with `method`, `args`, `kwargs`
declared `field(compare=False)`: the generated `__eq__`/`__lt__`/… compare
the tuple `(store_name, order_key)` only. -/

/-! ## `state_store.py`: `SQLite3Store.flush`

`flush` sorts the buffered updates in place with `list.sort()` — a stable
ascending sort under the dataclass order, i.e. under `(store_name,
order_key)` — and then applies them one by one, in that order, inside a
single `with con:` transaction.  The embedding captures the applied
sequence: `flushApplySeq cache` is the exact order in which the buffered
updates reach the underlying store. -/

/-! ## `load_balancer.py`: `GreedyLoadBalancer`

Faithful embedding of the class state and methods.  The random draw of
`add_object` (`random.randint(0, n_buckets - 1)`) is passed in as the
explicit argument `b`.  Lookups the source performs on states that are
well-formed by construction (`object_load[o]` for an object sitting in a
bucket, list indexing by `argmax`/`argmin` results) are embedded with
`getD` defaults; on well-formed states (`GLBWF` below) they coincide with
the Python lookups. -/

/-! ## Association list and set lemmas -/

/-! ## Concrete balancer states used by the claim theorems -/

/-! ## `datatypes.py`: `Timestep` and `coordinator.py`: `Coordinator`

`Timestep.stop` embeds the Python attribute `end` (a Lean keyword).  The
Coordinator's `balancing_time` (wall-clock profiling via `perf_counter`)
is not modelled; the `rank_*` statistics lists are indexed by rank
(`rank < WORLD_SIZE` in every run, so the in-range embedding via
`set`/`getD` coincides with the Python list indexing). -/

/-! ## `runner.py`: the `Runner` step gates

Only the step-gating state machine is embedded: `do_step()` — the
iteration over local agents — is represented by the event
`step_started ts`, marking the point where the Runner begins executing
its local agents for timestep `ts`.  `WORLD_SIZE` is the parameter `N`;
a broadcast to `EVERY_RANK` is the list of sends to ranks `0, …, N-1`
(the sender's own rank included). -/

/-- Python `float` true division: `x / y`, raising `ZeroDivisionError`
when `y == 0`. -/
def pydiv (x y : ℚ) : Except String ℚ :=
  if y = 0 then .error "ZeroDivisionError: float division by zero" else .ok (x / y)

/-- NumPy `float64` division: `0/0` is `nan` and `x/0` is `±inf`; both
non-finite outcomes are collapsed to `none` (every claim-relevant use
compares the result with `<`, which is `False` for `nan` and `+inf`,
the only non-finite values reachable from `(max - min) / sum`). -/
def npdiv (x y : ℚ) : Option ℚ :=
  if y = 0 then none else some (x / y)

/-- Python `max()` over a collection of floats; raises `ValueError` on an
empty collection. -/
def pymax : List ℚ → Except String ℚ
  | [] => .error "ValueError: max() arg is an empty sequence"
  | x :: rest => .ok (rest.foldl max x)

/-- `d[k]` as an `Option` (used where the source guarantees presence). -/
def dlookup {α : Type} : List (Nat × α) → Nat → Option α
  | [], _ => none
  | p :: rest, k => if p.1 = k then some p.2 else dlookup rest k

/-- `d[k]`, raising `KeyError` when `k` is absent. -/
def dget {α : Type} (m : List (Nat × α)) (k : Nat) : Except String α :=
  match dlookup m k with
  | some v => .ok v
  | none => .error "KeyError"

/-- `d[k] = v`: overwrite in place if present, else append. -/
def dset {α : Type} (m : List (Nat × α)) (k : Nat) (v : α) : List (Nat × α) :=
  if (dlookup m k).isSome then
    m.map (fun p => if p.1 = k then (k, v) else p)
  else
    m ++ [(k, v)]

/-- Removal of a key from an association list (the effect of `del d[k]`
on a present key). -/
def dremove {α : Type} : List (Nat × α) → Nat → List (Nat × α)
  | [], _ => []
  | p :: rest, k => if p.1 = k then dremove rest k else p :: dremove rest k

/-- `del d[k]`, raising `KeyError` when `k` is absent. -/
def ddel {α : Type} (m : List (Nat × α)) (k : Nat) : Except String (List (Nat × α)) :=
  if (dlookup m k).isSome then .ok (dremove m k) else .error "KeyError"

/-- `s.add(o)` on a Python set (duplicate-free list). -/
def sadd (s : List Nat) (o : Nat) : List Nat :=
  if o ∈ s then s else s ++ [o]

/-- Removal of an element from a Python set (duplicate-free list). -/
def sdel : List Nat → Nat → List Nat
  | [], _ => []
  | x :: rest, o => if x = o then sdel rest o else x :: sdel rest o

/-- `s.remove(o)` on a Python set; raises `KeyError` when absent. -/
def sremove (s : List Nat) (o : Nat) : Except String (List Nat) :=
  if o ∈ s then .ok (sdel s o) else .error "KeyError"

structure StateUpdate where
  store_name : String
  order_key : String
  method : String
  args : List String
  kwargs : List (String × String)
  deriving DecidableEq, Repr

namespace StateUpdate

/-- The tuple of `compare=True` fields of the dataclass. -/
def cmpKey (u : StateUpdate) : String × String := (u.store_name, u.order_key)

/-- The generated `__eq__`: tuple equality of the compared fields. -/
def pyEq (u v : StateUpdate) : Prop :=
  u.store_name = v.store_name ∧ u.order_key = v.order_key

instance pyEq.instDec : DecidableRel pyEq := fun u v => by
  unfold pyEq; infer_instance

/-- The generated `__lt__`: lexicographic `<` on the compared tuple. -/
def pyLt (u v : StateUpdate) : Prop :=
  u.store_name < v.store_name ∨ (u.store_name = v.store_name ∧ u.order_key < v.order_key)

instance pyLt.instDec : DecidableRel pyLt := fun u v => by
  unfold pyLt; infer_instance

/-- The generated `__le__`: lexicographic `≤` on the compared tuple.
`list.sort()` sorts ascending w.r.t. `__lt__`, i.e. into `pyLe` order. -/
def pyLe (u v : StateUpdate) : Prop :=
  u.store_name < v.store_name ∨ (u.store_name = v.store_name ∧ u.order_key ≤ v.order_key)

instance pyLe.instDec : DecidableRel pyLe := fun u v => by
  unfold pyLe; infer_instance

instance pyLe.instIsTotal : IsTotal StateUpdate pyLe where
  total u v := by
    unfold pyLe
    rcases lt_trichotomy u.store_name v.store_name with h | h | h
    · exact Or.inl (Or.inl h)
    · rcases le_total u.order_key v.order_key with h2 | h2
      · exact Or.inl (Or.inr ⟨h, h2⟩)
      · exact Or.inr (Or.inr ⟨h.symm, h2⟩)
    · exact Or.inr (Or.inl h)

instance pyLe.instIsTrans : IsTrans StateUpdate pyLe where
  trans u v w huv hvw := by
    unfold pyLe at *
    rcases huv with h1 | ⟨e1, l1⟩
    · rcases hvw with h2 | ⟨e2, _⟩
      · exact Or.inl (h1.trans h2)
      · exact Or.inl (e2 ▸ h1)
    · rcases hvw with h2 | ⟨e2, l2⟩
      · exact Or.inl (e1 ▸ h2)
      · exact Or.inr ⟨e1.trans e2, l1.trans l2⟩

end StateUpdate

def flushApplySeq (update_cache : List StateUpdate) : List StateUpdate :=
  List.insertionSort StateUpdate.pyLe update_cache

/-- Buffered updates used by the witnesses: same store, ordered keys,
distinct payloads, arriving in reverse key order. -/
def wUpdA : StateUpdate := ⟨"store", "5-a", "set", ["1"], []⟩

def wUpdB : StateUpdate := ⟨"store", "5-b", "set", ["2"], []⟩

def wCache : List StateUpdate := [wUpdB, wUpdA]

/-- `wUpdA` with a different payload. -/
def wUpdA2 : StateUpdate := ⟨"store", "5-a", "delete", ["7", "8"], [("k", "v")]⟩

/-- `wUpdB` with a different payload. -/
def wUpdB2 : StateUpdate := ⟨"store", "5-b", "insert", [], [("x", "y")]⟩

def LAMBDA_A : ℚ := 9 / 10

def LAMBDA_B : ℚ := 9 / 10

def LAMBDA : ℚ := 9 / 10

def IMBALANCE_TOL : ℚ := 5 / 100

structure GreedyLoadBalancer where
  n_buckets : Nat
  bucket_objects : List (List Nat)
  object_bucket : List (Nat × Nat)
  object_la : List (Nat × ℚ)
  object_lb : List (Nat × ℚ)
  object_load : List (Nat × ℚ)
  bucket_load : List ℚ
  imbalance : Option ℚ
  new_objects : List Nat
  object_bucket_prev : List (Nat × Nat)
  deriving DecidableEq, Repr

namespace GreedyLoadBalancer

/-- `GreedyLoadBalancer.__init__(n_buckets)`. -/
def init (n : Nat) : GreedyLoadBalancer where
  n_buckets := n
  bucket_objects := List.replicate n []
  object_bucket := []
  object_la := []
  object_lb := []
  object_load := []
  bucket_load := List.replicate n 0
  imbalance := some 0
  new_objects := []
  object_bucket_prev := []

/-- `reset()`. -/
def reset (s : GreedyLoadBalancer) : GreedyLoadBalancer :=
  { s with new_objects := [], object_bucket_prev := [] }

/-- `add_object(o, la, lb)`; `b` is the value drawn by
`random.randint(0, n_buckets - 1)`. -/
def add_object (s : GreedyLoadBalancer) (o : Nat) (la lb : ℚ) (b : Nat) :
    GreedyLoadBalancer :=
  { s with
    bucket_objects := s.bucket_objects.set b (sadd (s.bucket_objects.getD b []) o)
    object_bucket := dset s.object_bucket o b
    object_la := dset s.object_la o la
    object_lb := dset s.object_lb o lb
    new_objects := sadd s.new_objects o }

/-- `delete_object(o)`: raises `KeyError` when `o` is untracked. -/
def delete_object (s : GreedyLoadBalancer) (o : Nat) :
    Except String GreedyLoadBalancer := do
  let b ← dget s.object_bucket o
  let la' ← ddel s.object_la o
  let lb' ← ddel s.object_lb o
  let ob' ← ddel s.object_bucket o
  let bset' ← sremove (s.bucket_objects.getD b []) o
  .ok { s with
    object_la := la'
    object_lb := lb'
    object_bucket := ob'
    bucket_objects := s.bucket_objects.set b bset' }

/-- `update_load(o, la, lb)`: EMA update of both stored loads; raises
`KeyError` when `o` is untracked. -/
def update_load (s : GreedyLoadBalancer) (o : Nat) (la lb : ℚ) :
    Except String GreedyLoadBalancer := do
  let p_la ← dget s.object_la o
  let p_lb ← dget s.object_lb o
  let la := (1 - LAMBDA_A) * p_la + LAMBDA_A * la
  let lb := (1 - LAMBDA_B) * p_lb + LAMBDA_B * lb
  .ok { s with
    object_la := dset s.object_la o la
    object_lb := dset s.object_lb o lb }

/-- `_update_load()`.  Two behaviours of the source are embedded verbatim:
the second normalized component reads `object_la[o]` (not `object_lb[o]`),
and `bucket_load.fill(0.0)` sits **inside** the `for i in range(n_buckets)`
loop, so after the loop only index `n_buckets - 1` holds its bucket's sum
(every earlier index has just been re-zeroed). -/
def recompute_load (s : GreedyLoadBalancer) : Except String GreedyLoadBalancer := do
  let max_la ← pymax (s.object_la.map (fun p => p.2))
  let max_lb ← pymax (s.object_lb.map (fun p => p.2))
  let oload ← s.object_bucket.foldlM
    (fun (m : List (Nat × ℚ)) p => do
      let lav ← dget s.object_la p.1
      let la ← pydiv lav max_la
      let lb ← pydiv lav max_lb
      .ok (dset m p.1 ((1 - LAMBDA) * la + LAMBDA * lb)))
    s.object_load
  let bload := (List.range s.n_buckets).foldl
    (fun (_ : List ℚ) i =>
      let filled := List.replicate s.n_buckets (0 : ℚ)
      filled.set i ((s.bucket_objects.getD i []).foldl
        (fun acc o => acc + ((dlookup oload o).getD 0)) 0))
    s.bucket_load
  .ok { s with object_load := oload, bucket_load := bload }

/-- `np.argmax`: index of the first occurrence of the maximum. -/
def argmaxIdx (l : List ℚ) : Nat :=
  match l.max? with
  | some m => l.findIdx (fun v => decide (v = m))
  | none => 0

/-- `np.argmin`: index of the first occurrence of the minimum. -/
def argminIdx (l : List ℚ) : Nat :=
  match l.min? with
  | some m => l.findIdx (fun v => decide (v = m))
  | none => 0

/-- `_update_imbalance()`: `(max - min) / sum` over the NumPy array;
`np.min`/`np.max` raise on an empty array, and a zero sum produces a
non-finite value (`none`). -/
def recompute_imbalance (s : GreedyLoadBalancer) : Except String GreedyLoadBalancer :=
  match s.bucket_load with
  | [] => .error "ValueError: zero-size array to reduction operation"
  | x :: rest =>
    let min_load := rest.foldl min x
    let max_load := rest.foldl max x
    let sum_load := (x :: rest).foldl (fun a b => a + b) 0
    .ok { s with imbalance := npdiv (max_load - min_load) sum_load }

/-- The ordering in which `heapq.heappop` returns the `(load, object)`
pairs that `_greedy_move` pushed: lexicographic on load, then object id. -/
def heapLe (x y : ℚ × Nat) : Prop :=
  x.1 < y.1 ∨ (x.1 = y.1 ∧ x.2 ≤ y.2)

instance heapLe.instDec : DecidableRel heapLe := fun x y => by
  unfold heapLe; infer_instance

/-- The `while object_load_h:` pop loop of `_greedy_move`: pop the lightest
remaining pair and move the object iff the source would stay at least as
loaded as the destination; stop at the first pair failing the test. -/
def move_loop (src dst : Nat) :
    List (ℚ × Nat) → GreedyLoadBalancer → Bool → GreedyLoadBalancer × Bool
  | [], s, moved => (s, moved)
  | (l, o) :: rest, s, moved =>
    if (s.bucket_load.getD src 0) - l ≥ (s.bucket_load.getD dst 0) + l then
      let prev' := if (dlookup s.object_bucket_prev o).isSome then
          s.object_bucket_prev else s.object_bucket_prev ++ [(o, src)]
      let bl1 := s.bucket_load.set src ((s.bucket_load.getD src 0) - l)
      let bl2 := bl1.set dst ((bl1.getD dst 0) + l)
      let bo1 := s.bucket_objects.set src
        (sdel (s.bucket_objects.getD src []) o)
      let bo2 := bo1.set dst (sadd (bo1.getD dst []) o)
      let s' := { s with
        object_bucket_prev := prev'
        bucket_load := bl2
        bucket_objects := bo2
        object_bucket := dset s.object_bucket o dst }
      move_loop src dst rest s' true
    else
      (s, moved)

/-- `_greedy_move()`. -/
def greedy_move (s : GreedyLoadBalancer) : GreedyLoadBalancer × Bool :=
  let src := argmaxIdx s.bucket_load
  let dst := argminIdx s.bucket_load
  let heap := List.insertionSort heapLe
    ((s.bucket_objects.getD src []).map (fun o => ((dlookup s.object_load o).getD 0, o)))
  move_loop src dst heap s false

/-- The `if self.imbalance < IMBALANCE_TOL` test: IEEE `<` is `False` for
the non-finite values (`none`). -/
def imbalance_below_tol : Option ℚ → Bool
  | some q => decide (q < IMBALANCE_TOL)
  | none => false

/-- The `while True:` loop of `balance()`, with explicit fuel; `none`
means the fuel ran out with the loop still running. -/
def balance_loop : Nat → GreedyLoadBalancer → Except String (Option GreedyLoadBalancer)
  | 0, _ => .ok none
  | fuel + 1, s => do
    let s ← recompute_imbalance s
    if imbalance_below_tol s.imbalance then
      .ok (some s)
    else
      let (s', moved) := greedy_move s
      if moved then balance_loop fuel s' else .ok (some s')

/-- The `object_bucket_prev` pruning at the end of `balance()`: drop the
entries of newly created objects and the no-op entries that point back at
the object's current bucket. -/
def prune_prev (s : GreedyLoadBalancer) : GreedyLoadBalancer :=
  let keep : Nat × Nat → Bool := fun p =>
    !(s.new_objects.contains p.1) && !(dlookup s.object_bucket p.1 == some p.2)
  { s with object_bucket_prev := s.object_bucket_prev.filter keep }

/-- `balance()`, with explicit fuel for its unbounded loop. -/
def balance (fuel : Nat) (s : GreedyLoadBalancer) :
    Except String (Option GreedyLoadBalancer) := do
  let s ← recompute_load s
  match ← balance_loop fuel s with
  | some s => .ok (some (prune_prev s))
  | none => .ok none

/-- `get_new_objects()`. -/
def get_new_objects (s : GreedyLoadBalancer) : List (Nat × Nat) :=
  s.new_objects.map (fun o => (o, (dlookup s.object_bucket o).getD 0))

/-- `get_moving_objects()`. -/
def get_moving_objects (s : GreedyLoadBalancer) : List (Nat × Nat × Nat) :=
  s.object_bucket_prev.map (fun p => (p.1, p.2, (dlookup s.object_bucket p.1).getD 0))

/-- The set of tracked object ids: the keys of `object_bucket`. -/
def tracked (s : GreedyLoadBalancer) : List Nat := s.object_bucket.map Prod.fst

/-- Well-formedness of a balancer state: the mutual-consistency invariant
between `bucket_objects`, `object_bucket` and the load dictionaries that
every state reachable through the public API (fresh `add_object`s,
successful `delete_object`/`update_load`/`balance` calls, `reset`)
maintains. -/
def WF (s : GreedyLoadBalancer) : Prop :=
  s.bucket_objects.length = s.n_buckets ∧
  (∀ p ∈ s.object_bucket, p.2 < s.n_buckets ∧ p.1 ∈ s.bucket_objects.getD p.2 []) ∧
  (∀ i, i < s.n_buckets → ∀ o ∈ s.bucket_objects.getD i [], dlookup s.object_bucket o = some i) ∧
  (s.object_bucket.map Prod.fst).Nodup ∧
  (∀ i, i < s.n_buckets → (s.bucket_objects.getD i []).Nodup) ∧
  s.object_la.map Prod.fst = s.object_bucket.map Prod.fst ∧
  s.object_lb.map Prod.fst = s.object_bucket.map Prod.fst

/-- The partition property claimed of the bucket assignment: membership in
a bucket set is equivalent to `object_bucket` naming that bucket, every
object sits in at most one bucket set, and the union of the bucket sets is
exactly the tracked set. -/
def Partitioned (s : GreedyLoadBalancer) : Prop :=
  (∀ o b, b < s.n_buckets →
    (o ∈ s.bucket_objects.getD b [] ↔ dlookup s.object_bucket o = some b)) ∧
  (∀ o b1 b2, b1 < s.n_buckets → b2 < s.n_buckets →
    o ∈ s.bucket_objects.getD b1 [] → o ∈ s.bucket_objects.getD b2 [] → b1 = b2) ∧
  (∀ o, (∃ b, b < s.n_buckets ∧ o ∈ s.bucket_objects.getD b []) ↔ o ∈ tracked s)

instance WF.instDecidable (s : GreedyLoadBalancer) : Decidable (WF s) := by
  unfold WF
  infer_instance

/-- Keys of `object_bucket_prev` are tracked objects.  Holds whenever
`balance` runs after `reset` (the Coordinator's per-step protocol). -/
def PrevTracked (s : GreedyLoadBalancer) : Prop :=
  ∀ p ∈ s.object_bucket_prev, (dlookup s.object_bucket p.1).isSome = true

instance PrevTracked.instDecidable (s : GreedyLoadBalancer) :
    Decidable (PrevTracked s) := by
  unfold PrevTracked
  infer_instance

/-- One public balancer operation, as the Coordinator may issue it: a fresh
`add_object` (with the random draw in range), a successful `delete_object`,
`update_load` or `balance`, or a `reset`. -/
inductive OpStep : GreedyLoadBalancer → GreedyLoadBalancer → Prop where
  | add {s : GreedyLoadBalancer} (o : Nat) (la lb : ℚ) (b : Nat)
      (ho : dlookup s.object_bucket o = none) (hb : b < s.n_buckets) :
      OpStep s (add_object s o la lb b)
  | del {s s' : GreedyLoadBalancer} (o : Nat) (h : delete_object s o = .ok s') :
      OpStep s s'
  | upd {s s' : GreedyLoadBalancer} (o : Nat) (la lb : ℚ)
      (h : update_load s o la lb = .ok s') : OpStep s s'
  | res {s : GreedyLoadBalancer} : OpStep s (reset s)
  | bal {s s' : GreedyLoadBalancer} (fuel : Nat)
      (h : balance fuel s = .ok (some s')) : OpStep s s'

/-- Reachability through any sequence of public balancer operations. -/
inductive OpReaches : GreedyLoadBalancer → GreedyLoadBalancer → Prop where
  | refl (s : GreedyLoadBalancer) : OpReaches s s
  | tail {s t u : GreedyLoadBalancer} : OpReaches s t → OpStep t u → OpReaches s u

end GreedyLoadBalancer

/-- Two buckets; object `0` in bucket `0` with `(la, lb) = (1, 2)` and
object `1` in bucket `1` with `(la, lb) = (2, 1)`. -/
def s2c : GreedyLoadBalancer where
  n_buckets := 2
  bucket_objects := [[0], [1]]
  object_bucket := [(0, 0), (1, 1)]
  object_la := [(0, 1), (1, 2)]
  object_lb := [(0, 2), (1, 1)]
  object_load := []
  bucket_load := [0, 0]
  imbalance := some 0
  new_objects := []
  object_bucket_prev := []

/-- The all-loads-zero degenerate state: one object, `la = lb = 0`. -/
def s7c : GreedyLoadBalancer where
  n_buckets := 2
  bucket_objects := [[0], []]
  object_bucket := [(0, 0)]
  object_la := [(0, 0)]
  object_lb := [(0, 0)]
  object_load := []
  bucket_load := [0, 0]
  imbalance := some 0
  new_objects := []
  object_bucket_prev := []

/-- Two objects in bucket `0` of two, one of them with `la = 0` (hence
normalized load `0`), and bucket `1` (the last bucket) empty. -/
def s3c : GreedyLoadBalancer where
  n_buckets := 2
  bucket_objects := [[0, 1], []]
  object_bucket := [(0, 0), (1, 0)]
  object_la := [(0, 0), (1, 1)]
  object_lb := [(0, 1), (1, 1)]
  object_load := []
  bucket_load := [0, 0]
  imbalance := some 0
  new_objects := []
  object_bucket_prev := []

/-- `s3c` right after `_update_load`: because `fill(0.0)` runs inside the
per-bucket loop and the last bucket is empty, `bucket_load = [0, 0]`. -/
def s3loaded : GreedyLoadBalancer where
  n_buckets := 2
  bucket_objects := [[0, 1], []]
  object_bucket := [(0, 0), (1, 0)]
  object_la := [(0, 0), (1, 1)]
  object_lb := [(0, 1), (1, 1)]
  object_load := [(0, 0), (1, 1)]
  bucket_load := [0, 0]
  imbalance := some 0
  new_objects := []
  object_bucket_prev := []

/-- The fixpoint of the `balance()` loop body reached from `s3c`:
`imbalance` is NaN (`0/0`), and `_greedy_move` "moves" the zero-load
object `0` from bucket `0` to bucket `0`, reporting `moved = True` while
changing nothing. -/
def s3fix : GreedyLoadBalancer where
  n_buckets := 2
  bucket_objects := [[1, 0], []]
  object_bucket := [(0, 0), (1, 0)]
  object_la := [(0, 0), (1, 1)]
  object_lb := [(0, 1), (1, 1)]
  object_load := [(0, 0), (1, 1)]
  bucket_load := [0, 0]
  imbalance := none
  new_objects := []
  object_bucket_prev := [(0, 0)]

/-- Two equally loaded objects, both seated in the last bucket of two;
`balance()` moves exactly one of them. -/
def s8c : GreedyLoadBalancer where
  n_buckets := 2
  bucket_objects := [[], [10, 11]]
  object_bucket := [(10, 1), (11, 1)]
  object_la := [(10, 1), (11, 1)]
  object_lb := [(10, 1), (11, 1)]
  object_load := []
  bucket_load := [0, 0]
  imbalance := some 0
  new_objects := []
  object_bucket_prev := []

/-- The result of `balance 3 s8c`: object `10` moved from bucket `1` to
bucket `0`. -/
def s8res : GreedyLoadBalancer where
  n_buckets := 2
  bucket_objects := [[10], [11]]
  object_bucket := [(10, 0), (11, 1)]
  object_la := [(10, 1), (11, 1)]
  object_lb := [(10, 1), (11, 1)]
  object_load := [(10, 1), (11, 1)]
  bucket_load := [1, 1]
  imbalance := some 0
  new_objects := []
  object_bucket_prev := [(10, 1)]

/-- A one-object state used by the C10 witness. -/
def s10c : GreedyLoadBalancer := GreedyLoadBalancer.add_object (.init 2) 1 1 1 0

structure Timestep where
  step : ℚ
  start : ℚ
  stop : ℚ
  deriving DecidableEq, Repr

structure Coordinator where
  balancer : GreedyLoadBalancer
  num_agents_created : Nat
  num_agents_died : Nat
  timestep : Option Timestep
  agent_constructor : List (Nat × Nat)
  flag_create_agent_done : Bool
  num_agent_step_profile_done : Nat
  rank_step_time : List ℚ
  rank_memory_usage : List ℚ
  rank_n_updates : List Nat
  agent_step_time : List (Nat × ℚ)
  agent_memory_usage : List (Nat × ℚ)
  agent_n_updates : List (Nat × Nat)
  deriving DecidableEq, Repr

namespace Coordinator

/-- `Coordinator.agent_step_profile(rank, agent_id, step_time,
memory_usage, n_updates, is_alive)`: accumulate the per-rank and per-agent
statistics; for a dead agent remove it from the balancer and count the
death; for a live agent compute
`scaled_step_time = step_time / (timestep.end - timestep.start)` and call
`balancer.update_load(agent_id, memory_usage, scaled_step_time)` — note
the argument order of the source: `memory_usage` is passed as `la` and
`scaled_step_time` as `lb`. -/
def agent_step_profile (c : Coordinator) (rank agent_id : Nat)
    (step_time memory_usage : ℚ) (n_updates : Nat) (is_alive : Bool) :
    Except String Coordinator := do
  let c1 : Coordinator := { c with
    rank_step_time := c.rank_step_time.set rank (c.rank_step_time.getD rank 0 + step_time)
    rank_memory_usage :=
      c.rank_memory_usage.set rank (c.rank_memory_usage.getD rank 0 + memory_usage)
    rank_n_updates := c.rank_n_updates.set rank (c.rank_n_updates.getD rank 0 + n_updates)
    agent_step_time := dset c.agent_step_time agent_id step_time
    agent_memory_usage := dset c.agent_memory_usage agent_id memory_usage
    agent_n_updates := dset c.agent_n_updates agent_id n_updates }
  if is_alive = false then
    let b ← c1.balancer.delete_object agent_id
    return { c1 with balancer := b, num_agents_died := c1.num_agents_died + 1 }
  else
    match c1.timestep with
    | none => .error "AttributeError: timestep is None"
    | some ts => do
      let scaled_step_time ← pydiv step_time (ts.stop - ts.start)
      let b ← c1.balancer.update_load agent_id memory_usage scaled_step_time
      return { c1 with balancer := b }

end Coordinator

/-- The concrete Coordinator state of the C5 counterexample and witness:
one tracked agent `7` with stored loads `la = 2`, `lb = 4`, inside
timestep `[0, 2)`. -/
def c5c : Coordinator where
  balancer := GreedyLoadBalancer.add_object (.init 2) 7 2 4 0
  num_agents_created := 1
  num_agents_died := 0
  timestep := some ⟨1, 0, 2⟩
  agent_constructor := [(7, 0)]
  flag_create_agent_done := true
  num_agent_step_profile_done := 0
  rank_step_time := [0, 0]
  rank_memory_usage := [0, 0]
  rank_n_updates := [0, 0]
  agent_step_time := []
  agent_memory_usage := []
  agent_n_updates := []

inductive RunnerEvent where
  | receive_agent_done_sent (dst src : Nat)
  | step_started (ts : Timestep)
  deriving DecidableEq, Repr

structure Runner where
  timestep : Option Timestep
  flag_create_agent_done : Bool
  flag_move_agents_done : Bool
  num_receive_agent_done : Nat
  deriving DecidableEq, Repr

namespace Runner

/-- `_prepare_for_next_step()`. -/
def prepare_for_next_step (_ : Runner) : Runner where
  timestep := none
  flag_create_agent_done := false
  flag_move_agents_done := false
  num_receive_agent_done := 0

/-- `_try_start_step()`: the four gates, in source order; when and only
when all hold, `do_step()` runs and the step variables are reset. -/
def try_start_step (N : Nat) (r : Runner) : Runner × List RunnerEvent :=
  match r.timestep with
  | none => (r, [])
  | some ts =>
    if r.flag_create_agent_done = false then (r, [])
    else if r.flag_move_agents_done = false then (r, [])
    else if r.num_receive_agent_done < N then (r, [])
    else (prepare_for_next_step r, [.step_started ts])

/-- `step(timestep)` from the Simulator. -/
def step (N : Nat) (r : Runner) (ts : Timestep) : Except String (Runner × List RunnerEvent) :=
  if r.timestep.isSome then .error "AssertionError"
  else .ok (try_start_step N { r with timestep := some ts })

/-- `create_agent_done()` from the Coordinator. -/
def create_agent_done (N : Nat) (r : Runner) : Except String (Runner × List RunnerEvent) :=
  if r.flag_create_agent_done then .error "AssertionError"
  else .ok (try_start_step N { r with flag_create_agent_done := true })

/-- `move_agent_done()` from the Coordinator: set the flag, broadcast
`receive_agent_done(self_rank)` to every Runner (itself included), then
try to start the step. -/
def move_agent_done (N self_rank : Nat) (r : Runner) :
    Except String (Runner × List RunnerEvent) :=
  if r.flag_move_agents_done then .error "AssertionError"
  else
    let r1 : Runner := { r with flag_move_agents_done := true }
    let broadcast := (List.range N).map
      (fun dst => RunnerEvent.receive_agent_done_sent dst self_rank)
    let res := try_start_step N r1
    .ok (res.1, broadcast ++ res.2)

/-- `receive_agent_done(rank)` from a Runner. -/
def receive_agent_done (N : Nat) (r : Runner) (_rank : Nat) :
    Except String (Runner × List RunnerEvent) :=
  if N ≤ r.num_receive_agent_done then .error "AssertionError"
  else .ok (try_start_step N
    { r with num_receive_agent_done := r.num_receive_agent_done + 1 })

end Runner

/-- A runner that has seen `step(ts)` and `create_agent_done`, two ranks. -/
def rW : Runner where
  timestep := some ⟨0, 0, 1⟩
  flag_create_agent_done := true
  flag_move_agents_done := false
  num_receive_agent_done := 0

/-! ## Theorems -/

/-- Two updates on the same store whose order keys are strictly ordered are
never `pyLe`-related the other way around. -/
theorem StateUpdate.not_pyLe_of_key_lt (u v : StateUpdate)
    (hs : u.store_name = v.store_name) (hk : u.order_key < v.order_key) :
    ¬ StateUpdate.pyLe v u := by
  intro h
  rcases h with h | ⟨_, l⟩
  · rw [hs] at h
    exact lt_irrefl _ h
  · exact absurd hk (not_lt.mpr l)

/-- C1: `SQLite3Store.flush` stably sorts the buffered updates by
`(store_name, order_key)` and applies them to the underlying store in that
sorted order (inside a single transaction); in particular any two buffered
updates on the same store with strictly ordered `order_key`s are applied in
`order_key` order: every applied occurrence of the smaller-keyed update
precedes every applied occurrence of the larger-keyed one, and both do
occur in the applied sequence. -/
theorem flush_applies_same_store_in_key_order
    (cache : List StateUpdate) (u1 u2 : StateUpdate)
    (h1 : u1 ∈ cache) (h2 : u2 ∈ cache)
    (hs : u1.store_name = u2.store_name) (hk : u1.order_key < u2.order_key) :
    List.Sorted StateUpdate.pyLe (flushApplySeq cache) ∧
    (flushApplySeq cache).Perm cache ∧
    (∀ i j : Fin (flushApplySeq cache).length,
        (flushApplySeq cache).get i = u1 → (flushApplySeq cache).get j = u2 → i < j) ∧
    (∃ i j : Fin (flushApplySeq cache).length,
        (flushApplySeq cache).get i = u1 ∧ (flushApplySeq cache).get j = u2 ∧ i < j) := by
  have hsorted := List.sorted_insertionSort StateUpdate.pyLe cache
  have hperm := List.perm_insertionSort StateUpdate.pyLe cache
  have hne : u1 ≠ u2 := by
    intro e
    rw [e] at hk
    exact lt_irrefl _ hk
  have hforall : ∀ i j : Fin (flushApplySeq cache).length,
      (flushApplySeq cache).get i = u1 → (flushApplySeq cache).get j = u2 → i < j := by
    intro i j e1 e2
    rcases lt_trichotomy i j with h | h | h
    · exact h
    · rw [h] at e1
      exact absurd (e1.symm.trans e2) hne
    · have hrel := hsorted.rel_get_of_lt h
      simp only [flushApplySeq] at e1 e2
      rw [e1, e2] at hrel
      exact absurd hrel (StateUpdate.not_pyLe_of_key_lt u1 u2 hs hk)
  refine ⟨hsorted, hperm, hforall, ?_⟩
  obtain ⟨i, e1⟩ := List.mem_iff_get.mp (hperm.mem_iff.mpr h1)
  obtain ⟨j, e2⟩ := List.mem_iff_get.mp (hperm.mem_iff.mpr h2)
  exact ⟨i, j, e1, e2, hforall i j e1 e2⟩

theorem flush_applies_same_store_in_key_order_witness :
    ∃ i j : Fin (flushApplySeq wCache).length,
      (flushApplySeq wCache).get i = wUpdA ∧ (flushApplySeq wCache).get j = wUpdB ∧ i < j :=
  (flush_applies_same_store_in_key_order wCache wUpdA wUpdB (by decide) (by decide)
    rfl (by decide)).2.2.2

/-- C9: the dataclass comparison methods of `StateUpdate` are functions of
`(store_name, order_key)` alone — `method`, `args`, `kwargs` never
participate — two updates with equal keys compare equal whatever their
payloads, and the stable flush sort leaves updates with `pyEq`-equal keys
in their buffer-arrival order (the `pyEq`-equivalence class of any update
is the same subsequence before and after sorting). -/
theorem stateupdate_order_ignores_payload :
    (∀ u v u' v' : StateUpdate, u.cmpKey = u'.cmpKey → v.cmpKey = v'.cmpKey →
        ((u.pyEq v ↔ u'.pyEq v') ∧ (u.pyLt v ↔ u'.pyLt v') ∧ (u.pyLe v ↔ u'.pyLe v'))) ∧
    (∀ u v : StateUpdate, u.pyEq v ↔ u.cmpKey = v.cmpKey) ∧
    (∀ (cache : List StateUpdate) (u : StateUpdate),
        List.filter (fun w => decide (w.pyEq u)) (flushApplySeq cache) =
          List.filter (fun w => decide (w.pyEq u)) cache) := by
  refine ⟨?_, ?_, ?_⟩
  · intro u v u' v' hu hv
    have hu1 : u.store_name = u'.store_name := congrArg Prod.fst hu
    have hu2 : u.order_key = u'.order_key := congrArg Prod.snd hu
    have hv1 : v.store_name = v'.store_name := congrArg Prod.fst hv
    have hv2 : v.order_key = v'.order_key := congrArg Prod.snd hv
    unfold StateUpdate.pyEq StateUpdate.pyLt StateUpdate.pyLe
    rw [hu1, hu2, hv1, hv2]
    exact ⟨Iff.rfl, Iff.rfl, Iff.rfl⟩
  · intro u v
    unfold StateUpdate.pyEq StateUpdate.cmpKey
    constructor
    · rintro ⟨h1, h2⟩
      rw [h1, h2]
    · intro h
      exact ⟨congrArg Prod.fst h, congrArg Prod.snd h⟩
  · intro cache u
    have hpair : List.Pairwise StateUpdate.pyLe
        (cache.filter (fun w => decide (w.pyEq u))) := by
      apply List.pairwise_of_forall_mem_list
      intro a ha b hb
      have ha' : a.pyEq u := of_decide_eq_true (List.mem_filter.mp ha).2
      have hb' : b.pyEq u := of_decide_eq_true (List.mem_filter.mp hb).2
      exact Or.inr ⟨ha'.1.trans hb'.1.symm, le_of_eq (ha'.2.trans hb'.2.symm)⟩
    have hsub : (cache.filter (fun w => decide (w.pyEq u))).Sublist (flushApplySeq cache) :=
      List.sublist_insertionSort hpair (List.filter_sublist cache)
    have hidem : (cache.filter (fun w => decide (w.pyEq u))).filter
        (fun w => decide (w.pyEq u)) = cache.filter (fun w => decide (w.pyEq u)) := by
      rw [List.filter_eq_self]
      intro a ha
      exact (List.mem_filter.mp ha).2
    have hsub2 : (cache.filter (fun w => decide (w.pyEq u))).Sublist
        ((flushApplySeq cache).filter (fun w => decide (w.pyEq u))) := by
      have h2 := hsub.filter (fun w => decide (w.pyEq u))
      rw [hidem] at h2
      exact h2
    have hlen : ((flushApplySeq cache).filter (fun w => decide (w.pyEq u))).length =
        (cache.filter (fun w => decide (w.pyEq u))).length :=
      (((List.perm_insertionSort StateUpdate.pyLe cache)).filter
        (fun w => decide (w.pyEq u))).length_eq
    exact (hsub2.eq_of_length hlen.symm).symm

theorem stateupdate_order_ignores_payload_witness :
    (wUpdA.pyEq wUpdB ↔ wUpdA2.pyEq wUpdB2) ∧ (wUpdA.pyLt wUpdB ↔ wUpdA2.pyLt wUpdB2) ∧
      (wUpdA.pyLe wUpdB ↔ wUpdA2.pyLe wUpdB2) :=
  stateupdate_order_ignores_payload.1 wUpdA wUpdB wUpdA2 wUpdB2 rfl rfl

theorem dlookup_isSome_iff {α : Type} (m : List (Nat × α)) (k : Nat) :
    (dlookup m k).isSome ↔ k ∈ m.map Prod.fst := by
  induction m with
  | nil => simp [dlookup]
  | cons p rest ih =>
    by_cases h : p.1 = k
    · simp [dlookup, h]
    · simp only [dlookup, h, if_false, List.map_cons, List.mem_cons, ih]
      constructor
      · exact fun hm => Or.inr hm
      · rintro (he | hm)
        · exact absurd he.symm h
        · exact hm

theorem dlookup_eq_none_iff {α : Type} (m : List (Nat × α)) (k : Nat) :
    dlookup m k = none ↔ k ∉ m.map Prod.fst := by
  rw [← dlookup_isSome_iff, Option.not_isSome_iff_eq_none]

theorem dlookup_mem {α : Type} {m : List (Nat × α)} {k : Nat} {v : α}
    (h : dlookup m k = some v) : (k, v) ∈ m := by
  induction m with
  | nil => simp [dlookup] at h
  | cons p rest ih =>
    rcases p with ⟨a, b⟩
    by_cases ha : a = k
    · simp only [dlookup, ha, if_true, Option.some.injEq] at h
      subst ha
      subst h
      exact List.mem_cons_self _ _
    · simp only [dlookup, ha, if_false] at h
      exact List.mem_cons_of_mem _ (ih h)

theorem dlookup_map_overwrite {α : Type} (m : List (Nat × α)) (k : Nat) (v : α) :
    dlookup (m.map (fun p => if p.1 = k then (k, v) else p)) k =
      if (dlookup m k).isSome then some v else none := by
  induction m with
  | nil => simp [dlookup]
  | cons p rest ih =>
    by_cases h : p.1 = k
    · simp [dlookup, h]
    · simp [dlookup, h, ih]

theorem dlookup_dset_self {α : Type} (m : List (Nat × α)) (k : Nat) (v : α) :
    dlookup (dset m k v) k = some v := by
  unfold dset
  by_cases h : (dlookup m k).isSome
  · rw [if_pos h, dlookup_map_overwrite, if_pos h]
  · rw [if_neg h]
    induction m with
    | nil => simp [dlookup]
    | cons p rest ih =>
      by_cases hp : p.1 = k
      · exact absurd (by simp [dlookup, hp]) h
      · simp only [List.cons_append, dlookup, hp, if_false]
        exact ih (by simpa [dlookup, hp] using h)

theorem dlookup_map_overwrite_ne {α : Type} (m : List (Nat × α)) (k k' : Nat)
    (v : α) (h : k' ≠ k) :
    dlookup (m.map (fun p => if p.1 = k then (k, v) else p)) k' = dlookup m k' := by
  induction m with
  | nil => simp [dlookup]
  | cons p rest ih =>
    by_cases hp : p.1 = k
    · have h1 : ¬ (k = k') := fun e => h e.symm
      have h2 : ¬ (p.1 = k') := by rw [hp]; exact h1
      simp [dlookup, hp, h1, h2, ih]
    · by_cases hp' : p.1 = k'
      · simp [dlookup, hp, hp', h]
      · simp [dlookup, hp, hp', ih]

theorem dlookup_append_single_ne {α : Type} (m : List (Nat × α)) (k k' : Nat)
    (v : α) (h : k' ≠ k) :
    dlookup (m ++ [(k, v)]) k' = dlookup m k' := by
  induction m with
  | nil => simp [dlookup, Ne.symm h]
  | cons p rest ih =>
    by_cases hp' : p.1 = k'
    · simp [dlookup, hp']
    · simp [dlookup, hp', ih]

theorem dlookup_dset_ne {α : Type} (m : List (Nat × α)) (k k' : Nat) (v : α)
    (h : k' ≠ k) : dlookup (dset m k v) k' = dlookup m k' := by
  unfold dset
  by_cases hs : (dlookup m k).isSome
  · rw [if_pos hs]
    exact dlookup_map_overwrite_ne m k k' v h
  · rw [if_neg hs]
    exact dlookup_append_single_ne m k k' v h

theorem keys_dset_of_isSome {α : Type} (m : List (Nat × α)) (k : Nat) (v : α)
    (h : (dlookup m k).isSome) :
    (dset m k v).map Prod.fst = m.map Prod.fst := by
  unfold dset
  rw [if_pos h, List.map_map]
  apply List.map_congr_left
  intro p _
  by_cases hp : p.1 = k
  · simp [hp]
  · simp [hp]

theorem keys_dset_of_none {α : Type} (m : List (Nat × α)) (k : Nat) (v : α)
    (h : dlookup m k = none) :
    (dset m k v).map Prod.fst = m.map Prod.fst ++ [k] := by
  unfold dset
  rw [if_neg (by simp [h]), List.map_append]
  rfl

theorem dlookup_dremove_self {α : Type} (m : List (Nat × α)) (k : Nat) :
    dlookup (dremove m k) k = none := by
  induction m with
  | nil => simp [dremove, dlookup]
  | cons p rest ih =>
    by_cases hp : p.1 = k
    · simpa [dremove, hp] using ih
    · simpa [dremove, hp, dlookup] using ih

theorem dlookup_dremove_ne {α : Type} (m : List (Nat × α)) (k k' : Nat)
    (h : k' ≠ k) : dlookup (dremove m k) k' = dlookup m k' := by
  induction m with
  | nil => simp [dremove]
  | cons p rest ih =>
    by_cases hp : p.1 = k
    · have hp' : ¬ (p.1 = k') := by rw [hp]; exact Ne.symm h
      rw [dremove, if_pos hp, ih, dlookup, if_neg hp']
    · rw [dremove, if_neg hp]
      by_cases hp' : p.1 = k'
      · rw [dlookup, if_pos hp', dlookup, if_pos hp']
      · rw [dlookup, if_neg hp', dlookup, if_neg hp', ih]

theorem keys_dremove {α : Type} (m : List (Nat × α)) (k : Nat) :
    (dremove m k).map Prod.fst = sdel (m.map Prod.fst) k := by
  induction m with
  | nil => simp [dremove, sdel]
  | cons p rest ih =>
    by_cases hp : p.1 = k
    · rw [dremove, if_pos hp, List.map_cons, sdel, if_pos hp, ih]
    · rw [dremove, if_neg hp, List.map_cons, List.map_cons, sdel, if_neg hp, ih]

theorem mem_sdel (s : List Nat) (o x : Nat) : x ∈ sdel s o ↔ x ∈ s ∧ x ≠ o := by
  induction s with
  | nil => simp [sdel]
  | cons y rest ih =>
    by_cases hy : y = o
    · rw [sdel, if_pos hy]
      subst hy
      rw [ih]
      constructor
      · exact fun hx => ⟨List.mem_cons_of_mem _ hx.1, hx.2⟩
      · rintro ⟨hx, hne⟩
        rcases List.mem_cons.mp hx with rfl | hx
        · exact absurd rfl hne
        · exact ⟨hx, hne⟩
    · rw [sdel, if_neg hy]
      constructor
      · intro hx
        rcases List.mem_cons.mp hx with rfl | hx
        · exact ⟨List.mem_cons_self _ _, fun e => hy e⟩
        · exact ⟨List.mem_cons_of_mem _ (ih.mp hx).1, (ih.mp hx).2⟩
      · rintro ⟨hx, hne⟩
        rcases List.mem_cons.mp hx with rfl | hx
        · exact List.mem_cons_self _ _
        · exact List.mem_cons_of_mem _ (ih.mpr ⟨hx, hne⟩)

theorem nodup_sdel (s : List Nat) (o : Nat) (h : s.Nodup) : (sdel s o).Nodup := by
  induction s with
  | nil => simp [sdel]
  | cons y rest ih =>
    rcases List.nodup_cons.mp h with ⟨hy, hrest⟩
    by_cases hyo : y = o
    · rw [sdel, if_pos hyo]
      exact ih hrest
    · rw [sdel, if_neg hyo]
      refine List.nodup_cons.mpr ⟨fun hmem => ?_, ih hrest⟩
      exact hy (mem_sdel rest o y |>.mp hmem).1

theorem mem_sadd (s : List Nat) (o x : Nat) : x ∈ sadd s o ↔ x ∈ s ∨ x = o := by
  unfold sadd
  by_cases h : o ∈ s
  · rw [if_pos h]
    constructor
    · exact fun hx => Or.inl hx
    · rintro (hx | rfl)
      · exact hx
      · exact h
  · rw [if_neg h]
    simp

theorem nodup_sadd (s : List Nat) (o : Nat) (h : s.Nodup) : (sadd s o).Nodup := by
  unfold sadd
  by_cases hm : o ∈ s
  · rwa [if_pos hm]
  · rw [if_neg hm]
    rw [List.nodup_append]
    refine ⟨h, List.nodup_singleton o, ?_⟩
    intro a ha hb
    rw [List.mem_singleton] at hb
    subst hb
    exact hm ha

theorem mem_dremove {α : Type} (m : List (Nat × α)) (k : Nat) (p : Nat × α) :
    p ∈ dremove m k ↔ p ∈ m ∧ p.1 ≠ k := by
  induction m with
  | nil => simp [dremove]
  | cons q rest ih =>
    by_cases hq : q.1 = k
    · rw [dremove, if_pos hq, ih]
      constructor
      · exact fun hx => ⟨List.mem_cons_of_mem _ hx.1, hx.2⟩
      · rintro ⟨hx, hne⟩
        rcases List.mem_cons.mp hx with rfl | hx
        · exact absurd hq hne
        · exact ⟨hx, hne⟩
    · rw [dremove, if_neg hq]
      constructor
      · intro hx
        rcases List.mem_cons.mp hx with rfl | hx
        · exact ⟨List.mem_cons_self _ _, hq⟩
        · exact ⟨List.mem_cons_of_mem _ (ih.mp hx).1, (ih.mp hx).2⟩
      · rintro ⟨hx, hne⟩
        rcases List.mem_cons.mp hx with rfl | hx
        · exact List.mem_cons_self _ _
        · exact List.mem_cons_of_mem _ (ih.mpr ⟨hx, hne⟩)

theorem dset_of_none {α : Type} (m : List (Nat × α)) (k : Nat) (v : α)
    (h : dlookup m k = none) : dset m k v = m ++ [(k, v)] := by
  unfold dset
  rw [if_neg (by simp [h])]

theorem getD_set_self {α : Type} (l : List α) (i : Nat) (x d : α) (h : i < l.length) :
    (l.set i x).getD i d = x := by
  simp [List.getD_eq_getElem?_getD, List.getElem?_set_self, h]

theorem getD_set_ne {α : Type} (l : List α) (i j : Nat) (x d : α) (h : i ≠ j) :
    (l.set i x).getD j d = l.getD j d := by
  simp [List.getD_eq_getElem?_getD, List.getElem?_set_ne h]

namespace GreedyLoadBalancer

theorem WF.partitioned {s : GreedyLoadBalancer} (hwf : WF s) : Partitioned s := by
  obtain ⟨_, hw2, hw3, _, _, _, _⟩ := hwf
  refine ⟨?_, ?_, ?_⟩
  · intro o b hb
    constructor
    · exact fun hm => hw3 b hb o hm
    · intro hl
      exact (hw2 (o, b) (dlookup_mem hl)).2
  · intro o b1 b2 hb1 hb2 hm1 hm2
    have h1 := hw3 b1 hb1 o hm1
    have h2 := hw3 b2 hb2 o hm2
    rw [h1] at h2
    exact Option.some.inj h2
  · intro o
    unfold tracked
    constructor
    · rintro ⟨b, hb, hm⟩
      have := hw3 b hb o hm
      rw [← dlookup_isSome_iff]
      simp [this]
    · intro hm
      rw [← dlookup_isSome_iff] at hm
      cases hl : dlookup s.object_bucket o with
      | none => rw [hl] at hm; simp at hm
      | some b =>
        have hp := hw2 (o, b) (dlookup_mem hl)
        exact ⟨b, hp.1, hp.2⟩

end GreedyLoadBalancer

theorem except_bind_ok {ε α β : Type} (a : α) (f : α → Except ε β) :
    (Except.ok a : Except ε α) >>= f = f a := rfl

theorem except_bind_error {ε α β : Type} (e : ε) (f : α → Except ε β) :
    (Except.error e : Except ε α) >>= f = .error e := rfl

namespace GreedyLoadBalancer

theorem WF.add_object {s : GreedyLoadBalancer} (hwf : WF s) (o : Nat) (la lb : ℚ)
    (b : Nat) (ho : dlookup s.object_bucket o = none) (hb : b < s.n_buckets) :
    WF (add_object s o la lb b) := by
  obtain ⟨hw1, hw2, hw3, hw4, hw5, hw6a, hw6b⟩ := hwf
  have hbl : b < s.bucket_objects.length := by rw [hw1]; exact hb
  have hkeys : (dset s.object_bucket o b).map Prod.fst =
      s.object_bucket.map Prod.fst ++ [o] := keys_dset_of_none _ _ _ ho
  have honotmem : o ∉ s.object_bucket.map Prod.fst := (dlookup_eq_none_iff _ _).mp ho
  have hla_none : dlookup s.object_la o = none := by
    rw [dlookup_eq_none_iff, hw6a]; exact honotmem
  have hlb_none : dlookup s.object_lb o = none := by
    rw [dlookup_eq_none_iff, hw6b]; exact honotmem
  refine ⟨?_, ?_, ?_, ?_, ?_, ?_, ?_⟩
  · simpa [GreedyLoadBalancer.add_object] using hw1
  · intro p hp
    simp only [GreedyLoadBalancer.add_object] at hp ⊢
    rcases List.mem_append.mp ((dset_of_none _ _ _ ho) ▸ hp) with hmem | hmem
    · have h2 := hw2 p hmem
      refine ⟨h2.1, ?_⟩
      by_cases hpb : p.2 = b
      · rw [hpb, getD_set_self _ _ _ _ hbl, mem_sadd]
        exact Or.inl (hpb ▸ h2.2)
      · rw [getD_set_ne _ _ _ _ _ (fun e => hpb e.symm)]
        exact h2.2
    · have hpe : p = (o, b) := List.mem_singleton.mp hmem
      subst hpe
      refine ⟨hb, ?_⟩
      rw [getD_set_self _ _ _ _ hbl, mem_sadd]
      exact Or.inr rfl
  · intro i hi o' ho'
    simp only [GreedyLoadBalancer.add_object] at hi ho' ⊢
    by_cases hib : i = b
    · subst hib
      rw [getD_set_self _ _ _ _ hbl, mem_sadd] at ho'
      rcases ho' with hmem | rfl
      · have hl := hw3 i hi o' hmem
        have hne : o' ≠ o := by
          intro e
          subst e
          rw [ho] at hl
          exact Option.noConfusion hl
        rw [dset_of_none _ _ _ ho, dlookup_append_single_ne _ _ _ _ hne]
        exact hl
      · exact dlookup_dset_self _ _ _
    · rw [getD_set_ne _ _ _ _ _ (fun e => hib e.symm)] at ho'
      have hl := hw3 i hi o' ho'
      have hne : o' ≠ o := by
        intro e
        subst e
        rw [ho] at hl
        exact Option.noConfusion hl
      rw [dset_of_none _ _ _ ho, dlookup_append_single_ne _ _ _ _ hne]
      exact hl
  · simp only [GreedyLoadBalancer.add_object]
    rw [hkeys, List.nodup_append]
    refine ⟨hw4, List.nodup_singleton o, ?_⟩
    intro a ha hbm
    rw [List.mem_singleton] at hbm
    subst hbm
    exact honotmem ha
  · intro i hi
    simp only [GreedyLoadBalancer.add_object] at hi ⊢
    by_cases hib : i = b
    · subst hib
      rw [getD_set_self _ _ _ _ hbl]
      exact nodup_sadd _ _ (hw5 i hi)
    · rw [getD_set_ne _ _ _ _ _ (fun e => hib e.symm)]
      exact hw5 i hi
  · simp only [GreedyLoadBalancer.add_object]
    rw [keys_dset_of_none _ _ _ hla_none, hkeys, hw6a]
  · simp only [GreedyLoadBalancer.add_object]
    rw [keys_dset_of_none _ _ _ hlb_none, hkeys, hw6b]

/-- On a well-formed state, `delete_object` of a tracked object succeeds and
its result is the record that removes the object everywhere. -/
theorem delete_object_ok {s : GreedyLoadBalancer} {o b : Nat} (hwf : WF s)
    (hb : dlookup s.object_bucket o = some b) :
    delete_object s o = .ok { s with
      object_la := dremove s.object_la o
      object_lb := dremove s.object_lb o
      object_bucket := dremove s.object_bucket o
      bucket_objects := s.bucket_objects.set b (sdel (s.bucket_objects.getD b []) o) } := by
  obtain ⟨hw1, hw2, hw3, hw4, hw5, hw6a, hw6b⟩ := hwf
  have hmemkeys : o ∈ s.object_bucket.map Prod.fst := by
    rw [← dlookup_isSome_iff, hb]
    rfl
  have hla : (dlookup s.object_la o).isSome = true := by
    rw [dlookup_isSome_iff, hw6a]
    exact hmemkeys
  have hlb : (dlookup s.object_lb o).isSome = true := by
    rw [dlookup_isSome_iff, hw6b]
    exact hmemkeys
  have hob : (dlookup s.object_bucket o).isSome = true := by rw [hb]; rfl
  have hm : o ∈ s.bucket_objects.getD b [] := (hw2 (o, b) (dlookup_mem hb)).2
  unfold delete_object
  rw [show dget s.object_bucket o = .ok b from by unfold dget; rw [hb], except_bind_ok,
    show ddel s.object_la o = .ok (dremove s.object_la o) from by unfold ddel; rw [if_pos hla],
    except_bind_ok,
    show ddel s.object_lb o = .ok (dremove s.object_lb o) from by unfold ddel; rw [if_pos hlb],
    except_bind_ok,
    show ddel s.object_bucket o = .ok (dremove s.object_bucket o) from by
      unfold ddel; rw [if_pos hob],
    except_bind_ok,
    show sremove (s.bucket_objects.getD b []) o = .ok (sdel (s.bucket_objects.getD b []) o) from by
      unfold sremove; rw [if_pos hm],
    except_bind_ok]

/-- `delete_object` on an untracked object raises `KeyError`. -/
theorem delete_object_err {s : GreedyLoadBalancer} {o : Nat}
    (ho : dlookup s.object_bucket o = none) :
    delete_object s o = .error "KeyError" := by
  unfold delete_object
  rw [show dget s.object_bucket o = .error "KeyError" from by unfold dget; rw [ho],
    except_bind_error]

theorem WF.delete_object {s s' : GreedyLoadBalancer} (hwf : WF s) (o : Nat)
    (h : delete_object s o = .ok s') : WF s' := by
  cases hb : dlookup s.object_bucket o with
  | none =>
    rw [delete_object_err hb] at h
    exact Except.noConfusion h
  | some b =>
    rw [delete_object_ok hwf hb] at h
    obtain ⟨hw1, hw2, hw3, hw4, hw5, hw6a, hw6b⟩ := hwf
    have hbn : b < s.n_buckets := (hw2 (o, b) (dlookup_mem hb)).1
    have hbl : b < s.bucket_objects.length := by rw [hw1]; exact hbn
    have hs' := (Except.ok.inj h).symm
    subst hs'
    refine ⟨?_, ?_, ?_, ?_, ?_, ?_, ?_⟩
    · simpa using hw1
    · intro p hp
      simp only at hp ⊢
      rcases (mem_dremove _ _ _).mp hp with ⟨hmem, hne⟩
      have h2 := hw2 p hmem
      refine ⟨h2.1, ?_⟩
      by_cases hpb : p.2 = b
      · rw [hpb, getD_set_self _ _ _ _ hbl, mem_sdel]
        exact ⟨hpb ▸ h2.2, hne⟩
      · rw [getD_set_ne _ _ _ _ _ (fun e => hpb e.symm)]
        exact h2.2
    · intro i hi o' ho'
      simp only at hi ho' ⊢
      by_cases hib : i = b
      · subst hib
        rw [getD_set_self _ _ _ _ hbl, mem_sdel] at ho'
        rw [dlookup_dremove_ne _ _ _ ho'.2]
        exact hw3 i hi o' ho'.1
      · rw [getD_set_ne _ _ _ _ _ (fun e => hib e.symm)] at ho'
        have hl := hw3 i hi o' ho'
        have hne : o' ≠ o := by
          intro e
          subst e
          rw [hb] at hl
          exact absurd (Option.some.inj hl) (fun e2 => hib e2.symm)
        rw [dlookup_dremove_ne _ _ _ hne]
        exact hl
    · simp only
      rw [keys_dremove]
      exact nodup_sdel _ _ hw4
    · intro i hi
      simp only at hi ⊢
      by_cases hib : i = b
      · subst hib
        rw [getD_set_self _ _ _ _ hbl]
        exact nodup_sdel _ _ (hw5 i hi)
      · rw [getD_set_ne _ _ _ _ _ (fun e => hib e.symm)]
        exact hw5 i hi
    · simp only
      rw [keys_dremove, keys_dremove, hw6a]
    · simp only
      rw [keys_dremove, keys_dremove, hw6b]

/-- On a well-formed state, `update_load` of a tracked object succeeds with
the EMA-updated load dictionaries. -/
theorem update_load_ok {s : GreedyLoadBalancer} {o : Nat} {p_la p_lb : ℚ}
    (la lb : ℚ) (hla : dlookup s.object_la o = some p_la)
    (hlb : dlookup s.object_lb o = some p_lb) :
    update_load s o la lb = .ok { s with
      object_la := dset s.object_la o ((1 - LAMBDA_A) * p_la + LAMBDA_A * la)
      object_lb := dset s.object_lb o ((1 - LAMBDA_B) * p_lb + LAMBDA_B * lb) } := by
  unfold update_load
  rw [show dget s.object_la o = .ok p_la from by unfold dget; rw [hla], except_bind_ok,
    show dget s.object_lb o = .ok p_lb from by unfold dget; rw [hlb], except_bind_ok]

/-- `update_load` on an object with no stored load raises `KeyError`. -/
theorem update_load_err {s : GreedyLoadBalancer} {o : Nat} (la lb : ℚ)
    (ho : dlookup s.object_la o = none) :
    update_load s o la lb = .error "KeyError" := by
  unfold update_load
  rw [show dget s.object_la o = .error "KeyError" from by unfold dget; rw [ho],
    except_bind_error]

theorem WF.update_load {s s' : GreedyLoadBalancer} (hwf : WF s) (o : Nat) (la lb : ℚ)
    (h : update_load s o la lb = .ok s') : WF s' := by
  obtain ⟨hw1, hw2, hw3, hw4, hw5, hw6a, hw6b⟩ := hwf
  cases hla : dlookup s.object_la o with
  | none =>
    rw [update_load_err la lb hla] at h
    exact Except.noConfusion h
  | some p_la =>
    have hmem : o ∈ s.object_la.map Prod.fst := by rw [← dlookup_isSome_iff, hla]; rfl
    have hlbs : (dlookup s.object_lb o).isSome = true := by
      rw [dlookup_isSome_iff, hw6b, ← hw6a]
      exact hmem
    cases hlb : dlookup s.object_lb o with
    | none => rw [hlb] at hlbs; exact Bool.noConfusion hlbs
    | some p_lb =>
      rw [update_load_ok la lb hla hlb] at h
      have hs' := (Except.ok.inj h).symm
      subst hs'
      refine ⟨hw1, hw2, hw3, hw4, hw5, ?_, ?_⟩
      · simp only
        rw [keys_dset_of_isSome _ _ _ (by rw [hla]; rfl), hw6a]
      · simp only
        rw [keys_dset_of_isSome _ _ _ hlbs, hw6b]

theorem WF.reset {s : GreedyLoadBalancer} (hwf : WF s) : WF (reset s) := by
  obtain ⟨hw1, hw2, hw3, hw4, hw5, hw6a, hw6b⟩ := hwf
  exact ⟨hw1, hw2, hw3, hw4, hw5, hw6a, hw6b⟩

/-- Membership in an overwriting `dset` on a present key. -/
theorem mem_dset_overwrite {α : Type} (m : List (Nat × α)) (k : Nat) (v : α)
    (hs : (dlookup m k).isSome = true) (p : Nat × α) :
    p ∈ dset m k v ↔ p = (k, v) ∨ (p ∈ m ∧ p.1 ≠ k) := by
  unfold dset
  rw [if_pos hs]
  constructor
  · intro hp
    obtain ⟨q, hq, hf⟩ := List.mem_map.mp hp
    by_cases hqk : q.1 = k
    · rw [if_pos hqk] at hf
      exact Or.inl hf.symm
    · rw [if_neg hqk] at hf
      subst hf
      exact Or.inr ⟨hq, hqk⟩
  · rintro (rfl | ⟨hp, hne⟩)
    · cases hv : dlookup m k with
      | none => rw [hv] at hs; exact Bool.noConfusion hs
      | some w =>
        exact List.mem_map.mpr ⟨(k, w), dlookup_mem hv, by simp⟩
    · exact List.mem_map.mpr ⟨p, hp, by rw [if_neg hne]⟩

/-- The combined invariant the `_greedy_move` pop loop preserves. -/
theorem move_loop_inv (src dst : Nat) (heap : List (ℚ × Nat)) :
    ∀ (s : GreedyLoadBalancer) (moved : Bool), WF s →
      src < s.n_buckets → dst < s.n_buckets →
      (∀ q ∈ heap, q.2 ∈ s.bucket_objects.getD src []) →
      (heap.map Prod.snd).Nodup →
      WF (move_loop src dst heap s moved).1 ∧
      (move_loop src dst heap s moved).1.n_buckets = s.n_buckets ∧
      (move_loop src dst heap s moved).1.bucket_load.length = s.bucket_load.length ∧
      (move_loop src dst heap s moved).1.object_bucket.map Prod.fst =
        s.object_bucket.map Prod.fst ∧
      (move_loop src dst heap s moved).1.new_objects = s.new_objects ∧
      (move_loop src dst heap s moved).1.object_la = s.object_la ∧
      (move_loop src dst heap s moved).1.object_lb = s.object_lb ∧
      (PrevTracked s → PrevTracked (move_loop src dst heap s moved).1) := by
  induction heap with
  | nil =>
    intro s moved hwf _ _ _ _
    exact ⟨hwf, rfl, rfl, rfl, rfl, rfl, rfl, fun hp => hp⟩
  | cons q rest ih =>
    intro s moved hwf hsrc hdst hmem hnd
    obtain ⟨l, o⟩ := q
    rw [move_loop]
    by_cases hcond :
        (s.bucket_load.getD src 0) - l ≥ (s.bucket_load.getD dst 0) + l
    case neg =>
      rw [if_neg hcond]
      exact ⟨hwf, rfl, rfl, rfl, rfl, rfl, rfl, fun hp => hp⟩
    case pos =>
      rw [if_pos hcond]
      obtain ⟨hw1, hw2, hw3, hw4, hw5, hw6a, hw6b⟩ := hwf
      have hsrcl : src < s.bucket_objects.length := by rw [hw1]; exact hsrc
      have hdstl : dst < s.bucket_objects.length := by rw [hw1]; exact hdst
      have ho : o ∈ s.bucket_objects.getD src [] := hmem (l, o) (List.mem_cons_self _ _)
      have hlo : dlookup s.object_bucket o = some src := hw3 src hsrc o ho
      have hloS : (dlookup s.object_bucket o).isSome = true := by rw [hlo]; rfl
      have hnd' : o ∉ rest.map Prod.snd ∧ (rest.map Prod.snd).Nodup :=
        List.nodup_cons.mp (show (o :: rest.map Prod.snd).Nodup from hnd)
      have hrestmem : ∀ x ∈ rest, x.2 ≠ o := by
        intro x hx e
        exact hnd'.1 (e ▸ List.mem_map.mpr ⟨x, hx, rfl⟩)
      -- the state after this single move
      set A := sdel (s.bucket_objects.getD src []) o with hA
      set bo1 := s.bucket_objects.set src A with hbo1
      set bo2 := bo1.set dst (sadd (bo1.getD dst []) o) with hbo2
      have hbo1len : bo1.length = s.bucket_objects.length := List.length_set _ _ _
      have hbo2len : bo2.length = s.bucket_objects.length := by
        rw [hbo2, List.length_set, hbo1len]
      have hgetD_bo2 : ∀ i, i < s.n_buckets → bo2.getD i [] =
          (if i = dst then sadd (bo1.getD dst []) o else
            if i = src then A else s.bucket_objects.getD i []) := by
        intro i hi
        by_cases hid : i = dst
        · rw [if_pos hid, hid, hbo2]
          exact getD_set_self _ _ _ _ (by rw [hbo1len]; exact hw1 ▸ hdst)
        · rw [if_neg hid, hbo2, getD_set_ne _ _ _ _ _ (fun e => hid e.symm)]
          by_cases his : i = src
          · rw [if_pos his, his, hbo1]
            exact getD_set_self _ _ _ _ hsrcl
          · rw [if_neg his, hbo1, getD_set_ne _ _ _ _ _ (fun e => his e.symm)]
      have hbo1_dst : bo1.getD dst [] =
          (if dst = src then A else s.bucket_objects.getD dst []) := by
        by_cases hds : dst = src
        · rw [if_pos hds, hds, hbo1]
          exact getD_set_self _ _ _ _ hsrcl
        · rw [if_neg hds, hbo1, getD_set_ne _ _ _ _ _ (fun e => hds e.symm)]
      -- membership in the updated buckets
      have hmem_bo2 : ∀ i, i < s.n_buckets → ∀ x,
          (x ∈ bo2.getD i [] ↔
            (i = dst ∧ x = o) ∨ (x ∈ s.bucket_objects.getD i [] ∧ x ≠ o)) := by
        intro i hi x
        rw [hgetD_bo2 i hi]
        by_cases hid : i = dst
        · rw [if_pos hid, mem_sadd, hbo1_dst]
          by_cases hds : dst = src
          · rw [if_pos hds, hA, mem_sdel]
            have hgd : s.bucket_objects.getD src [] = s.bucket_objects.getD i [] := by
              rw [hid, hds]
            rw [hgd]
            constructor
            · rintro (⟨hx, hne⟩ | rfl)
              · exact Or.inr ⟨hx, hne⟩
              · exact Or.inl ⟨hid, rfl⟩
            · rintro (⟨_, rfl⟩ | ⟨hx, hne⟩)
              · exact Or.inr rfl
              · exact Or.inl ⟨hx, hne⟩
          · rw [if_neg hds]
            have hgd : s.bucket_objects.getD dst [] = s.bucket_objects.getD i [] := by
              rw [hid]
            rw [hgd]
            constructor
            · rintro (hx | rfl)
              · refine Or.inr ⟨hx, ?_⟩
                intro e
                subst e
                have hcontra := hw3 i hi x hx
                rw [hlo] at hcontra
                exact hds ((Option.some.inj hcontra).trans hid).symm
              · exact Or.inl ⟨hid, rfl⟩
            · rintro (⟨_, rfl⟩ | ⟨hx, _⟩)
              · exact Or.inr rfl
              · exact Or.inl hx
        · rw [if_neg hid]
          by_cases his : i = src
          · rw [if_pos his, hA, mem_sdel]
            have hgd : s.bucket_objects.getD src [] = s.bucket_objects.getD i [] := by
              rw [his]
            rw [hgd]
            constructor
            · rintro ⟨hx, hne⟩
              exact Or.inr ⟨hx, hne⟩
            · rintro (⟨he, _⟩ | ⟨hx, hne⟩)
              · exact absurd he hid
              · exact ⟨hx, hne⟩
          · rw [if_neg his]
            constructor
            · intro hx
              refine Or.inr ⟨hx, ?_⟩
              intro e
              subst e
              have hcontra := hw3 i hi x hx
              rw [hlo] at hcontra
              exact his (Option.some.inj hcontra).symm
            · rintro (⟨he, _⟩ | ⟨hx, _⟩)
              · exact absurd he hid
              · exact hx
      -- WF of the moved state
      have hwf' : WF { s with
          object_bucket_prev := if (dlookup s.object_bucket_prev o).isSome then
            s.object_bucket_prev else s.object_bucket_prev ++ [(o, src)]
          bucket_load := (s.bucket_load.set src ((s.bucket_load.getD src 0) - l)).set dst
            (((s.bucket_load.set src ((s.bucket_load.getD src 0) - l)).getD dst 0) + l)
          bucket_objects := bo2
          object_bucket := dset s.object_bucket o dst } := by
        refine ⟨?_, ?_, ?_, ?_, ?_, ?_, ?_⟩
        · simpa [hbo2len] using hw1
        · intro p hp
          simp only at hp ⊢
          rcases (mem_dset_overwrite _ _ _ hloS p).mp hp with rfl | ⟨hpm, hpne⟩
          · exact ⟨hdst, (hmem_bo2 dst hdst o).mpr (Or.inl ⟨rfl, rfl⟩)⟩
          · have h2 := hw2 p hpm
            exact ⟨h2.1, (hmem_bo2 p.2 h2.1 p.1).mpr (Or.inr ⟨h2.2, hpne⟩)⟩
        · intro i hi x hx
          simp only at hi hx ⊢
          rcases (hmem_bo2 i hi x).mp hx with ⟨rfl, rfl⟩ | ⟨hxm, hxne⟩
          · exact dlookup_dset_self _ _ _
          · rw [dlookup_dset_ne _ _ _ _ hxne]
            exact hw3 i hi x hxm
        · simp only
          rw [keys_dset_of_isSome _ _ _ hloS]
          exact hw4
        · intro i hi
          simp only at hi ⊢
          rw [hgetD_bo2 i hi]
          by_cases hid : i = dst
          · rw [if_pos hid]
            apply nodup_sadd
            rw [hbo1_dst]
            by_cases hds : dst = src
            · rw [if_pos hds, hA]
              exact nodup_sdel _ _ (hw5 src hsrc)
            · rw [if_neg hds]
              exact hw5 dst hdst
          · rw [if_neg hid]
            by_cases his : i = src
            · rw [if_pos his, hA]
              exact nodup_sdel _ _ (hw5 src hsrc)
            · rw [if_neg his]
              exact hw5 i hi
        · simp only
          rw [keys_dset_of_isSome _ _ _ hloS]
          exact hw6a
        · simp only
          rw [keys_dset_of_isSome _ _ _ hloS]
          exact hw6b
      -- apply the induction hypothesis to the tail
      have hres := ih _ true hwf'
        (by simpa using hsrc) (by simpa using hdst)
        (by
          intro x hx
          simp only
          refine (hmem_bo2 src hsrc x.2).mpr (Or.inr ⟨hmem x (List.mem_cons_of_mem _ hx), ?_⟩)
          exact hrestmem x hx)
        hnd'.2
      refine ⟨hres.1, ?_, ?_, ?_, ?_, ?_, ?_, ?_⟩
      · rw [hres.2.1]
      · rw [hres.2.2.1]
        simp [List.length_set]
      · rw [hres.2.2.2.1]
        simp only
        rw [keys_dset_of_isSome _ _ _ hloS]
      · rw [hres.2.2.2.2.1]
      · rw [hres.2.2.2.2.2.1]
      · rw [hres.2.2.2.2.2.2.1]
      · intro hp
        apply hres.2.2.2.2.2.2.2
        intro p hpm
        simp only at hpm ⊢
        rw [keys_dset_of_isSome _ _ _ hloS] at *
        by_cases hpo : (dlookup s.object_bucket_prev o).isSome
        · rw [if_pos hpo] at hpm
          rw [dlookup_isSome_iff, keys_dset_of_isSome _ _ _ hloS, ← dlookup_isSome_iff]
          exact hp p hpm
        · rw [if_neg hpo] at hpm
          rw [dlookup_isSome_iff, keys_dset_of_isSome _ _ _ hloS, ← dlookup_isSome_iff]
          rcases List.mem_append.mp hpm with hpm | hpm
          · exact hp p hpm
          · rw [List.mem_singleton] at hpm
            subst hpm
            exact hloS

theorem argmaxIdx_lt_length (l : List ℚ) (h : l ≠ []) : argmaxIdx l < l.length := by
  unfold argmaxIdx
  cases hm : l.max? with
  | none => exact absurd (List.max?_eq_none_iff.mp hm) h
  | some m =>
    exact List.findIdx_lt_length_of_exists
      ⟨m, List.max?_mem (fun a b => max_choice a b) hm, by simp⟩

theorem argminIdx_lt_length (l : List ℚ) (h : l ≠ []) : argminIdx l < l.length := by
  unfold argminIdx
  cases hm : l.min? with
  | none => exact absurd (List.min?_eq_none_iff.mp hm) h
  | some m =>
    exact List.findIdx_lt_length_of_exists
      ⟨m, List.min?_mem (fun a b => min_choice a b) hm, by simp⟩

theorem greedy_move_inv {s : GreedyLoadBalancer} (hwf : WF s)
    (hlen : s.bucket_load.length = s.n_buckets) (hn : 0 < s.n_buckets) :
    WF (greedy_move s).1 ∧ (greedy_move s).1.n_buckets = s.n_buckets ∧
    (greedy_move s).1.bucket_load.length = s.bucket_load.length ∧
    (greedy_move s).1.object_bucket.map Prod.fst = s.object_bucket.map Prod.fst ∧
    (greedy_move s).1.new_objects = s.new_objects ∧
    (greedy_move s).1.object_la = s.object_la ∧
    (greedy_move s).1.object_lb = s.object_lb ∧
    (PrevTracked s → PrevTracked (greedy_move s).1) := by
  have hne : s.bucket_load ≠ [] := by
    intro e
    rw [e] at hlen
    simp at hlen
    omega
  have hsrc : argmaxIdx s.bucket_load < s.n_buckets := hlen ▸ argmaxIdx_lt_length _ hne
  have hdst : argminIdx s.bucket_load < s.n_buckets := hlen ▸ argminIdx_lt_length _ hne
  have hperm := List.perm_insertionSort heapLe
    ((s.bucket_objects.getD (argmaxIdx s.bucket_load) []).map
      (fun o => ((dlookup s.object_load o).getD 0, o)))
  have hmem : ∀ q ∈ List.insertionSort heapLe
      ((s.bucket_objects.getD (argmaxIdx s.bucket_load) []).map
        (fun o => ((dlookup s.object_load o).getD 0, o))),
      q.2 ∈ s.bucket_objects.getD (argmaxIdx s.bucket_load) [] := by
    intro q hq
    obtain ⟨o, ho, rfl⟩ := List.mem_map.mp (hperm.subset hq)
    exact ho
  have hsndeq : ((s.bucket_objects.getD (argmaxIdx s.bucket_load) []).map
      (fun o => ((dlookup s.object_load o).getD 0, o))).map Prod.snd =
      s.bucket_objects.getD (argmaxIdx s.bucket_load) [] := by
    rw [List.map_map]
    exact List.map_id _
  have hsnd : ((List.insertionSort heapLe
      ((s.bucket_objects.getD (argmaxIdx s.bucket_load) []).map
        (fun o => ((dlookup s.object_load o).getD 0, o)))).map Prod.snd).Nodup := by
    rw [(hperm.map Prod.snd).nodup_iff, hsndeq]
    exact hwf.2.2.2.2.1 _ hsrc
  exact move_loop_inv _ _ _ s false hwf hsrc hdst hmem hsnd

theorem recompute_imbalance_ok_shape {s t : GreedyLoadBalancer}
    (h : recompute_imbalance s = .ok t) :
    t = { s with imbalance := t.imbalance } := by
  unfold recompute_imbalance at h
  cases hbl : s.bucket_load with
  | nil => rw [hbl] at h; exact Except.noConfusion h
  | cons x rest =>
    rw [hbl] at h
    have he := Except.ok.inj h
    rw [← he]

theorem recompute_imbalance_error_shape {s : GreedyLoadBalancer}
    (h : s.bucket_load ≠ []) : ∃ t, recompute_imbalance s = .ok t := by
  unfold recompute_imbalance
  cases hbl : s.bucket_load with
  | nil => exact absurd hbl h
  | cons x rest => exact ⟨_, rfl⟩

theorem balance_loop_inv (fuel : Nat) :
    ∀ (s u : GreedyLoadBalancer), WF s →
    s.bucket_load.length = s.n_buckets → 0 < s.n_buckets →
    balance_loop fuel s = .ok (some u) →
    WF u ∧ u.object_bucket.map Prod.fst = s.object_bucket.map Prod.fst ∧
    u.new_objects = s.new_objects ∧ (PrevTracked s → PrevTracked u) := by
  induction fuel with
  | zero =>
    intro s u _ _ _ h
    simp only [balance_loop] at h
    exact absurd (Except.ok.inj h) (by simp)
  | succ k ih =>
    intro s u hwf hlen hn h
    simp only [balance_loop] at h
    cases him : recompute_imbalance s with
    | error e =>
      rw [him, except_bind_error] at h
      exact Except.noConfusion h
    | ok t =>
      have hts := recompute_imbalance_ok_shape him
      rw [him, except_bind_ok] at h
      have htb : t.object_bucket = s.object_bucket := by rw [hts]
      have htn : t.n_buckets = s.n_buckets := by rw [hts]
      have htl : t.bucket_load = s.bucket_load := by rw [hts]
      have htnew : t.new_objects = s.new_objects := by rw [hts]
      have htprev : t.object_bucket_prev = s.object_bucket_prev := by rw [hts]
      have hwt : WF t := by
        rw [hts]
        obtain ⟨a, b, c, d, e2, f, g⟩ := hwf
        exact ⟨a, b, c, d, e2, f, g⟩
      have hpt : PrevTracked s → PrevTracked t := by
        intro hp p hpm
        rw [htprev] at hpm
        rw [htb]
        exact hp p hpm
      by_cases htol : imbalance_below_tol t.imbalance = true
      · rw [if_pos htol] at h
        have hu : u = t := (Option.some.inj (Except.ok.inj h)).symm
        subst hu
        exact ⟨hwt, by rw [htb], htnew, fun hp => hpt hp⟩
      · rw [if_neg htol] at h
        have hg := greedy_move_inv hwt (by rw [htl, htn]; exact hlen) (by rw [htn]; exact hn)
        cases hgm : greedy_move t with
        | mk s1 mv =>
          rw [hgm] at h hg
          have h2 : (if mv = true then balance_loop k s1 else .ok (some s1)) =
              .ok (some u) := h
          obtain ⟨hgwf, hgn, hgl, hgk, hgnew, _, _, hgp⟩ := hg
          cases mv with
          | false =>
            rw [if_neg (by simp)] at h2
            have hu : u = s1 := (Option.some.inj (Except.ok.inj h2)).symm
            subst hu
            refine ⟨hgwf, by rw [hgk, htb], by rw [hgnew, htnew], fun hp => hgp (hpt hp)⟩
          | true =>
            rw [if_pos rfl] at h2
            have hrec := ih s1 u hgwf
              (by rw [hgl, htl, hlen, ← htn, ← hgn]) (by rw [hgn, htn]; exact hn) h2
            refine ⟨hrec.1, by rw [hrec.2.1, hgk, htb], by rw [hrec.2.2.1, hgnew, htnew],
              fun hp => hrec.2.2.2 (hgp (hpt hp))⟩

end GreedyLoadBalancer

theorem except_bind_ok_inv {ε α β : Type} {x : Except ε α} {f : α → Except ε β}
    {b : β} (h : x >>= f = .ok b) : ∃ a, x = .ok a ∧ f a = .ok b := by
  cases x with
  | error e => exact Except.noConfusion h
  | ok a => exact ⟨a, rfl, h⟩

namespace GreedyLoadBalancer

/-- `WF` only depends on the bucket structure and the load-dictionary keys. -/
theorem WF_of_fields_eq {s t : GreedyLoadBalancer} (hwf : WF s)
    (e1 : t.n_buckets = s.n_buckets) (e2 : t.bucket_objects = s.bucket_objects)
    (e3 : t.object_bucket = s.object_bucket) (e4 : t.object_la = s.object_la)
    (e5 : t.object_lb = s.object_lb) : WF t := by
  obtain ⟨a, b, c, d, e, f, g⟩ := hwf
  rw [WF, e1, e2, e3, e4, e5]
  exact ⟨a, b, c, d, e, f, g⟩

theorem bload_fold_length (n : Nat) (g : Nat → ℚ) (init : List ℚ) (hn : 0 < n) :
    ((List.range n).foldl
      (fun (_ : List ℚ) i => (List.replicate n (0 : ℚ)).set i (g i)) init).length = n := by
  cases n with
  | zero => omega
  | succ m =>
    rw [List.range_succ, List.foldl_append]
    simp [List.length_set, List.length_replicate]

theorem recompute_load_shape {s t : GreedyLoadBalancer}
    (h : recompute_load s = .ok t) :
    t.n_buckets = s.n_buckets ∧ t.bucket_objects = s.bucket_objects ∧
    t.object_bucket = s.object_bucket ∧ t.object_la = s.object_la ∧
    t.object_lb = s.object_lb ∧ t.new_objects = s.new_objects ∧
    t.object_bucket_prev = s.object_bucket_prev ∧
    s.object_la ≠ [] ∧
    (0 < s.n_buckets → t.bucket_load.length = s.n_buckets) := by
  unfold recompute_load at h
  obtain ⟨maxla, hma, h⟩ := except_bind_ok_inv h
  obtain ⟨maxlb, hmb, h⟩ := except_bind_ok_inv h
  obtain ⟨ol, hol, h⟩ := except_bind_ok_inv h
  have ht := (Except.ok.inj h).symm
  subst ht
  refine ⟨rfl, rfl, rfl, rfl, rfl, rfl, rfl, ?_, ?_⟩
  · intro e
    rw [e] at hma
    simp [pymax] at hma
  · intro hn
    exact bload_fold_length s.n_buckets
      (fun i => (s.bucket_objects.getD i []).foldl
        (fun acc o => acc + ((dlookup ol o).getD 0)) 0) s.bucket_load hn

/-- On a well-formed state with at least one tracked object there is at
least one bucket. -/
theorem WF.pos_buckets {s : GreedyLoadBalancer} (hwf : WF s)
    (hne : s.object_la ≠ []) : 0 < s.n_buckets := by
  obtain ⟨_, hw2, _, _, _, hw6a, _⟩ := hwf
  cases hob : s.object_bucket with
  | nil =>
    rw [hob] at hw6a
    simp at hw6a
    exact absurd hw6a hne
  | cons p rest =>
    have hp : p ∈ s.object_bucket := by rw [hob]; exact List.mem_cons_self _ _
    exact Nat.lt_of_le_of_lt (Nat.zero_le _) (hw2 p hp).1

/-- Inversion of a successful `balance()` call carrying the invariants the
claims need: well-formedness, prev-key tracking, and the pruning
guarantee on the surviving `object_bucket_prev` entries. -/
theorem balance_inv {s u : GreedyLoadBalancer} {fuel : Nat} (hwf : WF s)
    (h : balance fuel s = .ok (some u)) :
    WF u ∧ (PrevTracked s → PrevTracked u) ∧
    (∀ p ∈ u.object_bucket_prev,
      p.1 ∉ u.new_objects ∧ dlookup u.object_bucket p.1 ≠ some p.2) := by
  unfold balance at h
  obtain ⟨t, hload, h⟩ := except_bind_ok_inv h
  obtain ⟨r, hloop, h⟩ := except_bind_ok_inv h
  cases r with
  | none => exact Option.noConfusion (Except.ok.inj h)
  | some w =>
    have hu : u = prune_prev w := (Option.some.inj (Except.ok.inj h)).symm
    subst hu
    obtain ⟨e1, e2, e3, e4, e5, e6, e7, hne, hblen⟩ := recompute_load_shape hload
    have hn : 0 < s.n_buckets := hwf.pos_buckets hne
    have hwt : WF t := WF_of_fields_eq hwf e1 e2 e3 e4 e5
    have hloopres := balance_loop_inv fuel t w hwt
      (by rw [e1]; exact hblen hn) (by rw [e1]; exact hn) hloop
    have hwfw := hloopres.1
    refine ⟨?_, ?_, ?_⟩
    · exact WF_of_fields_eq hwfw rfl rfl rfl rfl rfl
    · intro hp
      have hpt : PrevTracked t := by
        intro p hpm
        rw [e7] at hpm
        rw [e3]
        exact hp p hpm
      have hpw := hloopres.2.2.2 hpt
      intro p hpm
      have hpm' : p ∈ w.object_bucket_prev := by
        have hsub : (prune_prev w).object_bucket_prev.Sublist w.object_bucket_prev := by
          simp only [prune_prev]
          exact List.filter_sublist _
        exact hsub.subset hpm
      exact hpw p hpm'
    · intro p hpm
      simp only [prune_prev] at hpm
      have hkeep := (List.mem_filter.mp hpm).2
      rw [Bool.and_eq_true, Bool.not_eq_true', Bool.not_eq_true'] at hkeep
      constructor
      · intro hmem
        have : w.new_objects.contains p.1 = true := List.elem_eq_true_of_mem hmem
        rw [this] at hkeep
        exact Bool.noConfusion hkeep.1
      · intro heq
        have : (dlookup w.object_bucket p.1 == some p.2) = true := by
          rw [show (prune_prev w).object_bucket = w.object_bucket from rfl] at heq
          rw [heq]
          simp
        rw [this] at hkeep
        exact Bool.noConfusion hkeep.2

/-- `balance` preserves well-formedness. -/
theorem WF.balance {s u : GreedyLoadBalancer} {fuel : Nat} (hwf : WF s)
    (h : balance fuel s = .ok (some u)) : WF u :=
  (balance_inv hwf h).1

theorem WF.opReaches {s t : GreedyLoadBalancer} (hr : OpReaches s t) (hwf : WF s) :
    WF t := by
  induction hr with
  | refl => exact hwf
  | tail _ hstep ih =>
    cases hstep with
    | add o la lb b ho hb => exact ih.add_object o la lb b ho hb
    | del o h => exact ih.delete_object o h
    | upd o la lb h => exact ih.update_load o la lb h
    | res => exact ih.reset
    | bal fuel h => exact ih.balance h

end GreedyLoadBalancer

/-- C2: evaluating `_update_load` on `s2c` shows both divergences from the
specified normalization.  The code stores
`object_load[0] = (1-λ)·(la₀/max_la) + λ·(la₀/max_lb) = 1/2` — the number
the claimed formula `(1-λ)·(la₀/max_la) + λ·(lb₀/max_lb)` evaluates to is
`19/20 ≠ 1/2` — and it leaves `bucket_load = [0, 1]`, although the sum of
bucket `0`'s object loads is `1/2 ≠ 0` (the `fill(0.0)` inside the loop
has just erased it). -/
theorem recompute_load_diverges_from_spec :
    (GreedyLoadBalancer.recompute_load s2c).map
      (fun t => (dlookup t.object_load 0, t.bucket_load)) =
      .ok (some ((1 : ℚ)/2), [0, 1]) ∧
    (1 : ℚ)/2 ≠ (1 - LAMBDA) * ((1 : ℚ)/2) + LAMBDA * ((2 : ℚ)/2) ∧
    ((0 : ℚ) : ℚ) ≠ (1 : ℚ)/2 := by
  refine ⟨by rfl, by decide, by decide⟩

/-- C3: `balance()` does not terminate on `s3c`.  For every fuel bound the
embedded loop is still running (`= .ok none`): the corrupted
`bucket_load = [0, 0]` makes `imbalance = 0/0 = NaN`, `NaN < 0.05` is
`False`, and `_greedy_move` self-moves the zero-load object `0` from
bucket `0` to bucket `0` reporting `moved = True`, so the `while True`
loop never exits. -/
theorem balance_never_terminates_on_zero_load_object :
    ∀ fuel, GreedyLoadBalancer.balance fuel s3c = .ok none := by
  have hfix : ∀ m, GreedyLoadBalancer.balance_loop m s3fix = .ok none := by
    intro m
    induction m with
    | zero => rfl
    | succ k ih =>
      exact (show GreedyLoadBalancer.balance_loop (k + 1) s3fix =
        GreedyLoadBalancer.balance_loop k s3fix from rfl).trans ih
  intro fuel
  cases fuel with
  | zero => rfl
  | succ n =>
    have h1 : GreedyLoadBalancer.balance (n + 1) s3c =
        (GreedyLoadBalancer.balance_loop n s3fix) >>= (fun r => match r with
          | some s => Except.ok (some (GreedyLoadBalancer.prune_prev s))
          | none => Except.ok none) := rfl
    rw [h1, hfix n]
    rfl

/-- C7: `balance()` is fatal, not lenient, when every stored load is zero:
on `s7c` (one object with `la = lb = 0`) `_update_load` divides by
`max_la = 0.0` and Python raises `ZeroDivisionError`, whatever the fuel;
the claimed behaviour — treat the imbalance as `0` and emit no moves —
never happens. -/
theorem balance_zero_loads_raises :
    ∀ fuel, GreedyLoadBalancer.balance fuel s7c =
      .error "ZeroDivisionError: float division by zero" :=
  fun _ => rfl

/-- C6 (amended): starting from any well-formed balancer state, any
sequence of public operations — `add_object` of objects not currently
tracked with an in-range random bucket, successful `delete_object` /
`update_load` / `balance` calls, and `reset` — leads to a state whose
bucket assignment is a partition: bucket membership coincides with
`object_bucket`, buckets are pairwise disjoint, and their union is the
tracked set. -/
theorem balancer_partition {s t : GreedyLoadBalancer}
    (hwf : GreedyLoadBalancer.WF s) (hr : GreedyLoadBalancer.OpReaches s t) :
    GreedyLoadBalancer.Partitioned t :=
  (GreedyLoadBalancer.WF.opReaches hr hwf).partitioned

theorem balancer_partition_witness :
    GreedyLoadBalancer.Partitioned s10c :=
  balancer_partition (by decide)
    (GreedyLoadBalancer.OpReaches.tail (GreedyLoadBalancer.OpReaches.refl _)
      (GreedyLoadBalancer.OpStep.add 1 1 1 0 (by decide) (by decide)))

/-- C6 counterexample: the claim as stated — the partition invariant after
*any* sequence of `add_object`/`delete_object`/`balance` calls — fails on
the code: `add_object` of an object that is already tracked (legal in
Python, and possible since the claim quantifies over all call sequences)
leaves the object in its old bucket set while `object_bucket` names the
new bucket.  Concretely, after `add_object(5, …)` landing in bucket `0`
and a second `add_object(5, …)` landing in bucket `1`, object `5` is still
a member of bucket `0` but `object_bucket[5] = 1`. -/
theorem balancer_partition_counterexample :
    5 ∈ (GreedyLoadBalancer.add_object
          (GreedyLoadBalancer.add_object (.init 2) 5 1 1 0) 5 1 1 1).bucket_objects.getD 0 [] ∧
    dlookup (GreedyLoadBalancer.add_object
          (GreedyLoadBalancer.add_object (.init 2) 5 1 1 0) 5 1 1 1).object_bucket 5 = some 1 ∧
    ¬ (5 ∈ (GreedyLoadBalancer.add_object
          (GreedyLoadBalancer.add_object (.init 2) 5 1 1 0) 5 1 1 1).bucket_objects.getD 0 [] ↔
        dlookup (GreedyLoadBalancer.add_object
          (GreedyLoadBalancer.add_object (.init 2) 5 1 1 0) 5 1 1 1).object_bucket 5 = some 0) := by
  refine ⟨by decide, by decide, by decide⟩

/-- C8: after any successful `balance()` on a well-formed state whose
`object_bucket_prev` entries all point at tracked objects (in the
Coordinator's protocol `reset()` has cleared it), every triple
`(o, src, dst)` reported by `get_moving_objects` has `src ≠ dst` and
`o ∉ new_objects`: the end-of-`balance` pruning drops exactly the entries
of new objects and the no-op entries. -/
theorem balance_moving_objects_sound {s u : GreedyLoadBalancer} {fuel : Nat}
    (hwf : GreedyLoadBalancer.WF s) (hprev : GreedyLoadBalancer.PrevTracked s)
    (h : GreedyLoadBalancer.balance fuel s = .ok (some u)) :
    ∀ t ∈ GreedyLoadBalancer.get_moving_objects u,
      t.2.1 ≠ t.2.2 ∧ t.1 ∉ u.new_objects := by
  obtain ⟨hwfu, hptu, hfilter⟩ := GreedyLoadBalancer.balance_inv hwf h
  intro t ht
  obtain ⟨p, hp, rfl⟩ := List.mem_map.mp ht
  have hf := hfilter p hp
  have hpt := hptu hprev p hp
  cases hl : dlookup u.object_bucket p.1 with
  | none => rw [hl] at hpt; exact Bool.noConfusion hpt
  | some c =>
    refine ⟨?_, hf.1⟩
    simp only [hl]
    intro e
    have e2 : p.2 = c := e
    exact hf.2 (by rw [hl, e2])

theorem balance_moving_objects_sound_witness :
    (1 : Nat) ≠ 0 ∧ (10 : Nat) ∉ s8res.new_objects :=
  @balance_moving_objects_sound s8c s8res 3
    (by decide) (by decide) (by rfl) (10, 1, 0) (by decide)

/-- C5 counterexample: on `c5c`, a live `agent_step_profile(rank=0,
agent_id=7, step_time=1, memory_usage=3, n_updates=5)` leaves
`la = 0.1·2 + 0.9·3 = 2.9` and `lb = 0.1·4 + 0.9·(1/2) = 0.85`: the
compute quantity `scaled_step_time = 1/(2-0)` EMA-updates `lb`, not `la`,
and `la ≠ 0.1·2 + 0.9·(1/2) = 0.65`, the value the claim requires. -/
theorem agent_step_profile_counterexample :
    (Coordinator.agent_step_profile c5c 0 7 1 3 5 true).map
      (fun c2 => (dlookup c2.balancer.object_la 7, dlookup c2.balancer.object_lb 7)) =
      .ok (some ((29 : ℚ)/10), some ((17 : ℚ)/20)) ∧
    (29 : ℚ)/10 ≠ (1 - LAMBDA_A) * 2 + LAMBDA_A * ((1 : ℚ)/2) := by
  refine ⟨by rfl, by decide⟩

/-- C5 (amended): for every live `agent_step_profile`, the Coordinator
computes `scaled_step_time = step_time / (timestep.end - timestep.start)`
and EMA-updates the agent's stored loads with `λ = 0.9` — but with the
roles swapped relative to the claim: `memory_usage` updates the first
stored component `la` and `scaled_step_time` updates the second component
`lb`, each as `new = (1-λ)·prev + λ·observed`. -/
theorem agent_step_profile_swapped_ema {c : Coordinator} {o : Nat} {ts : Timestep}
    {p_la p_lb : ℚ} (rank : Nat) (step_time memory_usage : ℚ) (n_updates : Nat)
    (hts : c.timestep = some ts) (hne : ts.stop - ts.start ≠ 0)
    (hla : dlookup c.balancer.object_la o = some p_la)
    (hlb : dlookup c.balancer.object_lb o = some p_lb) :
    (Coordinator.agent_step_profile c rank o step_time memory_usage n_updates true).map
      (fun c2 => (dlookup c2.balancer.object_la o, dlookup c2.balancer.object_lb o)) =
    .ok (some ((1 - LAMBDA_A) * p_la + LAMBDA_A * memory_usage),
      some ((1 - LAMBDA_B) * p_lb + LAMBDA_B * (step_time / (ts.stop - ts.start)))) := by
  unfold Coordinator.agent_step_profile
  dsimp only
  rw [if_neg (by simp), hts]
  dsimp only
  rw [show pydiv step_time (ts.stop - ts.start) = .ok (step_time / (ts.stop - ts.start)) from by
      unfold pydiv; rw [if_neg hne],
    except_bind_ok,
    GreedyLoadBalancer.update_load_ok memory_usage (step_time / (ts.stop - ts.start)) hla hlb,
    except_bind_ok]
  simp only [pure, Except.pure, Except.map]
  rw [dlookup_dset_self, dlookup_dset_self]

theorem agent_step_profile_swapped_ema_witness :
    (Coordinator.agent_step_profile c5c 0 7 1 3 5 true).map
      (fun c2 => (dlookup c2.balancer.object_la 7, dlookup c2.balancer.object_lb 7)) =
    .ok (some ((1 - LAMBDA_A) * 2 + LAMBDA_A * 3),
      some ((1 - LAMBDA_B) * 4 + LAMBDA_B * ((1 : ℚ) / (2 - 0)))) :=
  @agent_step_profile_swapped_ema c5c 7 ⟨1, 0, 2⟩ 2 4 0 1 3 5 rfl (by decide)
    (by rfl) (by rfl)

/-- C10: on a well-formed balancer state, `update_load` and
`delete_object` of an untracked object raise `KeyError` — and therefore a
Coordinator `agent_step_profile` for an agent unknown to the balancer is
fatal whatever the liveness flag — while under the tracked-object
precondition both calls succeed (the error branch is unreachable). -/
theorem update_delete_require_tracked (s : GreedyLoadBalancer) (o : Nat) (la lb : ℚ)
    (hwf : GreedyLoadBalancer.WF s) :
    (dlookup s.object_bucket o = none →
      GreedyLoadBalancer.update_load s o la lb = .error "KeyError" ∧
      GreedyLoadBalancer.delete_object s o = .error "KeyError" ∧
      (∀ (c : Coordinator) (rank : Nat) (st mu : ℚ) (nu : Nat) (alive : Bool),
        c.balancer = s →
        ∃ e, Coordinator.agent_step_profile c rank o st mu nu alive = .error e)) ∧
    (dlookup s.object_bucket o ≠ none →
      (∃ s', GreedyLoadBalancer.update_load s o la lb = .ok s') ∧
      (∃ s', GreedyLoadBalancer.delete_object s o = .ok s')) := by
  constructor
  · intro ho
    have hla_none : dlookup s.object_la o = none := by
      rw [dlookup_eq_none_iff, hwf.2.2.2.2.2.1]
      exact (dlookup_eq_none_iff _ _).mp ho
    refine ⟨GreedyLoadBalancer.update_load_err la lb hla_none,
      GreedyLoadBalancer.delete_object_err ho, ?_⟩
    intro c rank st mu nu alive hc
    unfold Coordinator.agent_step_profile
    dsimp only
    cases alive with
    | false =>
      rw [if_pos rfl, hc, GreedyLoadBalancer.delete_object_err ho, except_bind_error]
      exact ⟨_, rfl⟩
    | true =>
      rw [if_neg (by simp)]
      cases hts : c.timestep with
      | none => exact ⟨_, rfl⟩
      | some ts =>
        dsimp only
        by_cases hz : ts.stop - ts.start = 0
        · rw [show pydiv st (ts.stop - ts.start) =
              .error "ZeroDivisionError: float division by zero" from by
                unfold pydiv; rw [if_pos hz],
            except_bind_error]
          exact ⟨_, rfl⟩
        · rw [show pydiv st (ts.stop - ts.start) = .ok (st / (ts.stop - ts.start)) from by
              unfold pydiv; rw [if_neg hz],
            except_bind_ok, hc, GreedyLoadBalancer.update_load_err _ _ hla_none,
            except_bind_error]
          exact ⟨_, rfl⟩
  · intro ho
    cases hb : dlookup s.object_bucket o with
    | none => exact absurd hb ho
    | some b =>
      have hmem : o ∈ s.object_bucket.map Prod.fst := by
        rw [← dlookup_isSome_iff, hb]
        rfl
      have hlaS : (dlookup s.object_la o).isSome = true := by
        rw [dlookup_isSome_iff, hwf.2.2.2.2.2.1]
        exact hmem
      have hlbS : (dlookup s.object_lb o).isSome = true := by
        rw [dlookup_isSome_iff, hwf.2.2.2.2.2.2]
        exact hmem
      cases hla : dlookup s.object_la o with
      | none => rw [hla] at hlaS; exact Bool.noConfusion hlaS
      | some pla =>
        cases hlb : dlookup s.object_lb o with
        | none => rw [hlb] at hlbS; exact Bool.noConfusion hlbS
        | some plb =>
          exact ⟨⟨_, GreedyLoadBalancer.update_load_ok la lb hla hlb⟩,
            ⟨_, GreedyLoadBalancer.delete_object_ok hwf hb⟩⟩

theorem update_delete_require_tracked_witness :
    (∃ s', GreedyLoadBalancer.update_load s10c 1 5 5 = .ok s') ∧
    (∃ s', GreedyLoadBalancer.delete_object s10c 1 = .ok s') :=
  (update_delete_require_tracked s10c 1 5 5 (by decide)).2 (by decide)

/-- C4: a Runner begins executing its local agents exactly when all four
gates hold — `step(ts)` seen, `create_agent_done` seen, `move_agent_done`
seen, and `receive_agent_done` collected from all `N` ranks (itself
included) — and the `move_agent_done` handler broadcasts
`receive_agent_done(self_rank)` to every Runner, its own rank included. -/
theorem runner_step_gates :
    (∀ (N : Nat) (r : Runner),
      (∃ ts, RunnerEvent.step_started ts ∈ (Runner.try_start_step N r).2) ↔
      (r.timestep.isSome = true ∧ r.flag_create_agent_done = true ∧
        r.flag_move_agents_done = true ∧ N ≤ r.num_receive_agent_done)) ∧
    (∀ (N self_rank : Nat) (r : Runner), r.flag_move_agents_done = false →
      ∃ r2 evs, Runner.move_agent_done N self_rank r = .ok (r2, evs) ∧
        ∀ dst, dst < N → RunnerEvent.receive_agent_done_sent dst self_rank ∈ evs) := by
  constructor
  · intro N r
    unfold Runner.try_start_step
    cases hts : r.timestep with
    | none =>
      simp
    | some ts =>
      dsimp only
      by_cases h1 : r.flag_create_agent_done = false
      · rw [if_pos h1]
        simp [h1]
      · rw [if_neg h1]
        rw [Bool.not_eq_false] at h1
        by_cases h2 : r.flag_move_agents_done = false
        · rw [if_pos h2]
          simp [h1, h2]
        · rw [if_neg h2]
          rw [Bool.not_eq_false] at h2
          by_cases h3 : r.num_receive_agent_done < N
          · rw [if_pos h3]
            simp [h1, h2]
            omega
          · rw [if_neg h3]
            simp [h1, h2]
            omega
  · intro N self_rank r h
    unfold Runner.move_agent_done
    rw [if_neg (by rw [h]; exact Bool.false_ne_true)]
    refine ⟨_, _, rfl, ?_⟩
    intro dst hdst
    apply List.mem_append_left
    exact List.mem_map.mpr ⟨dst, List.mem_range.mpr hdst, rfl⟩

theorem runner_step_gates_witness :
    ∃ r2 evs, Runner.move_agent_done 2 1 rW = .ok (r2, evs) ∧
      ∀ dst, dst < 2 → RunnerEvent.receive_agent_done_sent dst 1 ∈ evs :=
  runner_step_gates.2 2 1 rW rfl

